import Mathlib

/-!
Verification development for the ListingAnalysisAutomation repository.

The TypeScript sources are shallowly embedded here.  JavaScript strings are
modelled as `List Char` (`Str`); UTF-16 length agrees with list length for the
ASCII/BMP data handled by this program.  JavaScript numbers produced by
`parseFloat`/`parseInt` on the digit patterns used in the code are modelled as
exact rationals / naturals (the program only compares and stores them; the
digit strings involved are short, so sign and order facts are unaffected by
binary rounding).  Each regular expression of the source is hand-compiled to
an executable position matcher with JavaScript leftmost-match semantics;
greedy sub-patterns are determinised where the pattern shape makes greedy
matching backtracking-free, and explicit descending backtracking search is
used where it does not (comments at each matcher explain the reasoning).
-/

namespace LA

/-- JavaScript strings, modelled as lists of characters. -/
abbrev Str := List Char

/-- The JS `\s` class restricted to the ASCII whitespace actually produced by
the scraped pages: space, tab, newline, carriage return, vertical tab, form
feed.  `String.prototype.trim` uses the same set. -/
def wsChar (c : Char) : Bool :=
  c = ' ' || c = '\t' || c = '\n' || c = '\r' || c = '\x0b' || c = '\x0c'

/-- The regex class `\d`. -/
def digitChar (c : Char) : Bool := '0' ≤ c && c ≤ '9'

def lowerAlpha (c : Char) : Bool := 'a' ≤ c && c ≤ 'z'

def upperAlpha (c : Char) : Bool := 'A' ≤ c && c ≤ 'Z'

/-- The regex class `[0-9A-Z]` under the `i` flag: digits and both letter
cases. -/
def alnumCi (c : Char) : Bool := digitChar c || upperAlpha c || lowerAlpha c

/-- ASCII lower-casing, as applied by case-insensitive regex comparison. -/
def lowCh (c : Char) : Char :=
  if upperAlpha c then Char.ofNat (c.toNat + 32) else c

/-- ASCII upper-casing: the behaviour of `String.prototype.toUpperCase` on
the alphanumeric identifiers this program normalises. -/
def upCh (c : Char) : Char :=
  if lowerAlpha c then Char.ofNat (c.toNat - 32) else c

/-- `String.prototype.toUpperCase`. -/
def strUpper (s : Str) : Str := s.map upCh

/-- Case-insensitive character comparison (the `i` regex flag). -/
def eqCi (a b : Char) : Bool := lowCh a = lowCh b

/-- Case-insensitive prefix test for a literal in a regex with flag `i`. -/
def startsWithCi : Str → Str → Bool
  | [], _ => true
  | _ :: _, [] => false
  | l :: ls, c :: cs => eqCi l c && startsWithCi ls cs

/-- Consume an exact literal, returning the rest of the input. -/
def dropLit : Str → Str → Option Str
  | [], s => some s
  | _ :: _, [] => none
  | l :: ls, c :: cs => if l = c then dropLit ls cs else none

/-- Consume a literal case-insensitively, returning the rest of the input. -/
def dropLitCi : Str → Str → Option Str
  | [], s => some s
  | _ :: _, [] => none
  | l :: ls, c :: cs => if eqCi l c then dropLitCi ls cs else none

/-- Exact substring test (`String.prototype.includes`). -/
def containsSub (pat : Str) : Str → Bool
  | [] => pat.isEmpty
  | s@(_ :: t) => (dropLit pat s).isSome || containsSub pat t

/-- Suffix test (`$`-anchored literal alternative in a regex). -/
def endsWith (suf s : Str) : Bool := (dropLit suf (s.drop (s.length - suf.length))).isSome

/-- Case-insensitive suffix test. -/
def endsWithCi (suf s : Str) : Bool :=
  (dropLitCi suf (s.drop (s.length - suf.length))).isSome

/-- `String.prototype.trim`: strip leading and trailing whitespace. -/
def trimL (s : Str) : Str := s.dropWhile wsChar

def trimR (s : Str) : Str := (s.reverse.dropWhile wsChar).reverse

def trim (s : Str) : Str := trimR (trimL s)

/-- Splitting a string on the newline character, as JS split with a newline
separator does. -/
def splitNl : Str → List Str
  | [] => [[]]
  | c :: t =>
    match splitNl t with
    | [] => [[c]]
    | h :: r => if c = '\n' then [] :: h :: r else (c :: h) :: r

/-- Leftmost-match scan: try the position matcher on every suffix, left to
right, and return the first success (JS `String.prototype.match` without
the `g` flag). -/
def scanFirst (m : Str → Option α) : Str → Option α
  | [] => m []
  | s@(_ :: t) =>
    match m s with
    | some a => some a
    | none => scanFirst m t

/-- Descending backtracking search: try offsets `n, n-1, …, 0` and return the
first success.  This is the search order of a greedy `[^x]*` sub-pattern
followed by a literal. -/
def lastHit (f : Nat → Option α) : Nat → Option α
  | 0 => f 0
  | n + 1 =>
    match f (n + 1) with
    | some a => some a
    | none => lastHit f n

/-- All matches of a global regex (`String.prototype.matchAll` / `match` with
flag `g`): scan left to right, and resume after each match.  The position
matcher returns the match value together with the unconsumed rest; every
matcher used here consumes at least one character, and the guard keeps the
function total regardless. -/
def matchAllAux (m : Str → Option (α × Str)) : Nat → Str → List α
  | 0, _ => []
  | _ + 1, [] => []
  | fuel + 1, s@(_ :: t) =>
    match m s with
    | some (a, rest) =>
      a :: matchAllAux m fuel (if rest.length < s.length then rest else t)
    | none => matchAllAux m fuel t

def matchAll (m : Str → Option (α × Str)) (s : Str) : List α :=
  matchAllAux m s.length s

/-- Digit-string to number (`parseInt` on a digit-only string). -/
def digitsToNat (ds : Str) : Nat := ds.foldl (fun n c => 10 * n + (c.toNat - 48)) 0

/-- `parseFloat` on a string of the shape `digits.digits`, as an exact
rational. -/
def ratVal (ip fp : Str) : ℚ :=
  (digitsToNat ip : ℚ) + (digitsToNat fp : ℚ) / ((10 : ℚ) ^ fp.length)

/-! ## Product identifier validation (src/nodes/googleSheets.ts)

`readAsinsFromSheet` keeps the rows of column A after the header row whose
first cell passes the regex `^B[0-9A-Z]{9}$` with flag `i`, upper-cases them,
and removes duplicates with a `Set` (insertion order preserved). -/

/-- Repetition of a character-class test, `{n}`-anchored: consume exactly
`n` class characters. -/
def dropClassN (p : Char → Bool) : Nat → Str → Option Str
  | 0, s => some s
  | _ + 1, [] => none
  | n + 1, c :: t => if p c then dropClassN p n t else none

/-- The test of regex `^B[0-9A-Z]{9}$` with flag `i` (googleSheets.ts line
50): anchored at both ends, a literal `B` (case-insensitive) followed by
exactly nine characters of the class `[0-9A-Z]` taken case-insensitively. -/
def asinRegexTest (s : Str) : Bool :=
  match s with
  | [] => false
  | c :: t =>
    eqCi 'B' c &&
      match dropClassN alnumCi 9 t with
      | some rest => rest.isEmpty
      | none => false

/-- The claim's own wording of the validation predicate, for comparison with
the code: a letter followed by nine alphanumeric characters,
case-insensitively. -/
def claimLetterPlusNine (s : Str) : Bool :=
  match s with
  | [] => false
  | c :: t =>
    (upperAlpha c || lowerAlpha c) &&
      match dropClassN alnumCi 9 t with
      | some rest => rest.isEmpty
      | none => false

/-- First-occurrence deduplication: the behaviour of building a JS Set from
an array and converting back, since a Set iterates in insertion order.  The
fuel bounds the recursion depth; the list length always suffices because
filtering only shortens the tail. -/
def firstDedupAux : Nat → List Str → List Str
  | 0, _ => []
  | _ + 1, [] => []
  | fuel + 1, a :: t => a :: firstDedupAux fuel (t.filter (fun b => !(b = a : Bool)))

def firstDedup (l : List Str) : List Str := firstDedupAux l.length l

/-- Error-log entries of the workflow state (src/types/index.ts). -/
structure ErrEntry where
  step : Str
  asin : Option Str
  message : Str
  deriving DecidableEq, Repr

/-- The pure content of `readAsinsFromSheet` (googleSheets.ts lines 34-57)
once the sheet rows have been fetched: empty row set is reported as an error;
otherwise the header row is skipped, first cells are kept when truthy and
matching the ASIN regex, upper-cased, and deduplicated. -/
def readAsinsFromSheet (rows : List (List Str)) (errors : List ErrEntry) :
    List Str × List ErrEntry :=
  if rows.isEmpty then
    ([], errors ++ [⟨"googleSheets".toList, none, "No ASINs found in sheet".toList⟩])
  else
    let asins := (((rows.drop 1).filterMap (fun r => r.head?)).filter
      (fun a => !a.isEmpty && asinRegexTest a)).map strUpper
    (firstDedup asins, errors)

/-! ## Listing parser, numeric fields (lib/firecrawl-amazon.ts lines 150-201)

Each field tries an ordered list of regexes against the markdown view and
takes the first match; no match leaves the zero default. -/

/-- Position matcher for the fragment of a decimal number `\d+\.\d{2}`:
a non-empty greedy digit run, a dot, then exactly two digits.  The first run
is backtracking-free because the digit class excludes the dot.  Returns the
two capture parts and the rest of the input. -/
def matchMoneyAt (s : Str) : Option ((Str × Str) × Str) :=
  let ip := s.takeWhile digitChar
  if ip.isEmpty then none else
  match s.drop ip.length with
  | '.' :: r2 =>
    match r2 with
    | a :: b :: r3 => if digitChar a && digitChar b then some ((ip, [a, b]), r3) else none
    | _ => none
  | _ => none

/-- Price pattern 1, regex of a dollar sign followed by a two-decimal amount
(line 154). -/
def matchPrice1At (s : Str) : Option (Str × Str) :=
  match s with
  | '$' :: r => (matchMoneyAt r).map (·.1)
  | _ => none

/-- Price pattern 2 (line 155), case-insensitive: a literal Price label, a
colon, optional whitespace, then the dollar amount.  The whitespace run is
backtracking-free because the dollar sign is not whitespace. -/
def matchPrice2At (s : Str) : Option (Str × Str) := do
  let r ← dropLitCi "Price:".toList s
  match (r.dropWhile wsChar) with
  | '$' :: r2 => (matchMoneyAt r2).map (·.1)
  | _ => none

/-- Price pattern 3 (line 156), case-insensitive: a two-decimal amount
followed by optional whitespace and the literal USD. -/
def matchPrice3At (s : Str) : Option (Str × Str) := do
  let ((ip, fp), r) ← matchMoneyAt s
  let _ ← dropLitCi "USD".toList (r.dropWhile wsChar)
  pure (ip, fp)

/-- The price extraction loop (lines 152-165). -/
def extractPrice (md : Str) : ℚ :=
  match scanFirst matchPrice1At md with
  | some (ip, fp) => ratVal ip fp
  | none =>
    match scanFirst matchPrice2At md with
    | some (ip, fp) => ratVal ip fp
    | none =>
      match scanFirst matchPrice3At md with
      | some (ip, fp) => ratVal ip fp
      | none => 0

/-- The regex fragment `\d+\.\d+`: greedy digit runs around a dot, both
non-empty; backtracking-free since the digit class excludes the dot. -/
def matchDecimalAt (s : Str) : Option ((Str × Str) × Str) :=
  let ip := s.takeWhile digitChar
  if ip.isEmpty then none else
  match s.drop ip.length with
  | '.' :: r2 =>
    let fp := r2.takeWhile digitChar
    if fp.isEmpty then none else some ((ip, fp), r2.drop fp.length)
  | _ => none

/-- Rating pattern 1 (line 172), case-insensitive: a decimal, then the words
out of 5 stars separated by optional whitespace.  Each whitespace run is
backtracking-free because the following literal starts with a non-space. -/
def matchRating1At (s : Str) : Option (Str × Str) := do
  let ((ip, fp), r) ← matchDecimalAt s
  let r ← dropLitCi "out".toList (r.dropWhile wsChar)
  let r ← dropLitCi "of".toList (r.dropWhile wsChar)
  let r ← dropLit "5".toList (r.dropWhile wsChar)
  let _ ← dropLitCi "stars".toList (r.dropWhile wsChar)
  pure (ip, fp)

/-- Rating pattern 2 (line 173): a decimal followed by optional whitespace
and a star glyph (the source file stores the glyph in UTF-8). -/
def matchRating2At (s : Str) : Option (Str × Str) := do
  let ((ip, fp), r) ← matchDecimalAt s
  let _ ← dropLit ['★'] (r.dropWhile wsChar)
  pure (ip, fp)

/-- Rating pattern 3 (line 174), case-insensitive: a decimal followed by
optional whitespace and the literal stars. -/
def matchRating3At (s : Str) : Option (Str × Str) := do
  let ((ip, fp), r) ← matchDecimalAt s
  let _ ← dropLitCi "stars".toList (r.dropWhile wsChar)
  pure (ip, fp)

/-- The rating extraction loop (lines 170-183). -/
def extractRating (md : Str) : ℚ :=
  match scanFirst matchRating1At md with
  | some (ip, fp) => ratVal ip fp
  | none =>
    match scanFirst matchRating2At md with
    | some (ip, fp) => ratVal ip fp
    | none =>
      match scanFirst matchRating3At md with
      | some (ip, fp) => ratVal ip fp
      | none => 0

/-- The regex fragment of zero or more comma-plus-three-digit groups.
Greedy repetition is backtracking-free here: a dropped repetition would
leave the continuation reading a comma, and the continuation (optional
whitespace then a letter) can never accept a comma, so failures propagate
identically without revisiting earlier repetitions. -/
def commaGroups : Str → Str × Str
  | ',' :: a :: b :: c :: r =>
    if digitChar a && digitChar b && digitChar c then
      let (ds, rest) := commaGroups r
      (a :: b :: c :: ds, rest)
    else ([], ',' :: a :: b :: c :: r)
  | s => ([], s)

/-- Review-count patterns 1 and 2 (lines 190-191), case-insensitive: one to
three digits, thousands groups, optional whitespace, then a keyword.  A
digit run longer than three makes every split of the leading quantifier
leave a digit in front of the continuation, so the position fails. -/
def matchThousandsKwAt (kw : Str) (s : Str) : Option Str :=
  let run := s.takeWhile digitChar
  if run.isEmpty || 3 < run.length then none else
  let (ds, rest) := commaGroups (s.drop run.length)
  if (dropLitCi kw (rest.dropWhile wsChar)).isSome then some (run ++ ds) else none

/-- Review-count pattern 3 (line 192), case-insensitive: digits, optional
whitespace, the word customer, optional whitespace, the word reviews. -/
def matchCustomerReviewsAt (s : Str) : Option Str := do
  let run := s.takeWhile digitChar
  if run.isEmpty then none else do
  let r ← dropLitCi "customer".toList ((s.drop run.length).dropWhile wsChar)
  let _ ← dropLitCi "reviews".toList (r.dropWhile wsChar)
  pure run

/-- The review-count extraction loop (lines 188-201); the comma strip before
the integer parse is reflected by concatenating the digit groups. -/
def extractReviewCount (md : Str) : Nat :=
  match scanFirst (matchThousandsKwAt "ratings".toList) md with
  | some ds => digitsToNat ds
  | none =>
    match scanFirst (matchThousandsKwAt "reviews".toList) md with
    | some ds => digitsToNat ds
    | none =>
      match scanFirst matchCustomerReviewsAt md with
      | some ds => digitsToNat ds
      | none => 0

/-! ## Tag sections, bullets, title, description (lib/firecrawl-amazon.ts) -/

/-- Case-insensitive substring test, used for an attribute literal that must
occur somewhere inside the angle-free run of an opening tag. -/
def containsCi (pat : Str) : Str → Bool
  | [] => pat.isEmpty
  | s@(_ :: t) => (dropLitCi pat s).isSome || containsCi pat t

/-- Lazy capture up to a case-insensitive closing literal: the shortest
prefix after which the literal matches.  Fails when the literal never
occurs, which makes the surrounding match fail at this position. -/
def captureUntilCi (close : Str) : Str → Option (Str × Str)
  | [] => (dropLitCi close []).map (fun r => (([] : Str), r))
  | s@(c :: t) =>
    match dropLitCi close s with
    | some r => some ([], r)
    | none => (captureUntilCi close t).map (fun pr => (c :: pr.1, pr.2))

/-- Position matcher for the shape shared by the feature-bullets and
image-block regexes (lines 209-210, 683-684) and the list-item span regex
(line 215): an opening tag, an angle-free run that must contain the given
attribute literal, a closing angle, then a lazy capture up to the closing
tag, all case-insensitive.  The greedy angle-free runs are searched by
placing the attribute literal anywhere inside the run; every successful
placement resumes at the same closing angle, so only existence matters. -/
def matchTagSectionAt (tagOpen attrLit close : Str) (s : Str) : Option (Str × Str) := do
  let r ← dropLitCi tagOpen s
  let run := r.takeWhile (fun c => !(c = '>' : Bool))
  if containsCi attrLit run then
    match r.drop run.length with
    | '>' :: r2 => captureUntilCi close r2
    | _ => none
  else none

/-- The global tag-stripping replace of an HTML bullet (line 220): every
angle-bracketed group with a non-empty angle-free interior is removed,
leftmost first, non-overlapping. -/
def stripTagsAux : Nat → Str → Str
  | 0, s => s
  | _ + 1, [] => []
  | fuel + 1, '<' :: t =>
    let run := t.takeWhile (fun c => !(c = '>' : Bool))
    match t.drop run.length with
    | '>' :: r => if run.isEmpty then '<' :: stripTagsAux fuel t else stripTagsAux fuel r
    | _ => '<' :: stripTagsAux fuel t
  | fuel + 1, c :: t => c :: stripTagsAux fuel t

def stripTags (s : Str) : Str := stripTagsAux s.length s

/-- The whitespace-collapsing replace of an HTML bullet (line 221): every
maximal whitespace run becomes a single space. -/
def collapseWsAux : Nat → Str → Str
  | 0, s => s
  | _ + 1, [] => []
  | fuel + 1, c :: t =>
    if wsChar c then ' ' :: collapseWsAux fuel (t.dropWhile wsChar)
    else c :: collapseWsAux fuel t

def collapseWs (s : Str) : Str := collapseWsAux s.length s

/-- Cleaning of one HTML bullet (lines 218-222): the full span match has its
tags stripped, whitespace collapsed, and ends trimmed. -/
def cleanHtmlBullet (b : Str) : Str := trim (collapseWs (stripTags b))

/-- The length acceptance test applied to every bullet (lines 224, 251). -/
def bulletLenOk (b : Str) : Bool := 20 < b.length && b.length < 500

/-- The feature-bullets section of the HTML view (lines 209-211). -/
def featureBulletsSection (html : Str) : Option Str :=
  scanFirst (fun s =>
    (matchTagSectionAt "<div".toList "id=\"feature-bullets\"".toList "</div>".toList s).map
      (·.1)) html

/-- All list-item span matches inside the feature-bullets section (line
215); the code consumes the full matched span text, so the matcher rebuilds
it from the consumed prefix. -/
def spanListItems (sec : Str) : List Str :=
  matchAll (fun s =>
    (matchTagSectionAt "<span".toList "class=\"a-list-item\"".toList "</span>".toList s).map
      (fun pr => (s.take (s.length - pr.2.length), pr.2))) sec

/-- The HTML bullet path (lines 208-229). -/
def htmlBullets (html : Str) : List Str :=
  match featureBulletsSection html with
  | some sec => ((spanListItems sec).map cleanHtmlBullet).filter bulletLenOk
  | none => []

/-- A markdown line matched by the bullet-line regex of line 233: a star or
hyphen marker, at least one whitespace character, then at least one more
character. -/
def mdBulletLine (l : Str) : Bool :=
  match l with
  | c :: d :: _ :: _ => (c = '*' || c = '-') && wsChar d
  | _ => false

/-- Marker stripping and trim of one markdown bullet (line 248). -/
def cleanMdBullet (l : Str) : Str := trim ((l.drop 1).dropWhile wsChar)

/-- The anchored deny-list of lines 235-245.  All patterns are prefix
anchored; the two more-patterns are anchored at both ends; one pattern is a
decimal followed by out of. -/
def mdBulletExcluded (c : Str) : Bool :=
  startsWithCi "Customer Questions".toList c ||
  startsWithCi "Product Details".toList c ||
  startsWithCi "Technical Details".toList c ||
  startsWithCi "Additional Information".toList c ||
  startsWithCi "See more product details".toList c ||
  (match matchDecimalAt c with
   | some (_, r) => (dropLitCi "out of".toList (r.dropWhile wsChar)).isSome
   | none => false) ||
  startsWithCi "Reviewed in".toList c ||
  (c.length = "Read more".length && startsWithCi "Read more".toList c) ||
  (c.length = "Show more".length && startsWithCi "Show more".toList c)

/-- The markdown bullet fallback (lines 232-256). -/
def mdBullets (md : Str) : List Str :=
  (((splitNl md).filter mdBulletLine).map cleanMdBullet).filter
    (fun c => !mdBulletExcluded c && bulletLenOk c)

/-- The bullet cascade (lines 206-256): the markdown path runs only when the
HTML path produced nothing. -/
def extractBullets (md html : Str) : List Str :=
  let hb := htmlBullets html
  if hb.isEmpty then mdBullets md else hb

/-- Position matcher for the product-title span (line 117): an opening span
whose angle-free run contains the title id, a greedy non-angle capture of at
least one character, then the closing span.  The capture is backtracking-free
because shrinking it would put a non-bracket character where the closing
literal needs one. -/
def matchTitleSpanAt (s : Str) : Option Str := do
  let r ← dropLitCi "<span".toList s
  let run := r.takeWhile (fun c => !(c = '>' : Bool))
  if containsCi "id=\"productTitle\"".toList run then
    match r.drop run.length with
    | '>' :: r2 =>
      let cap := r2.takeWhile (fun c => !(c = '<' : Bool))
      if cap.isEmpty then none
      else if (dropLitCi "</span>".toList (r2.drop cap.length)).isSome then some cap
      else none
    | _ => none
  else none

/-- A markdown line matched by the heading regex of line 124: a single hash,
at least one whitespace character, at least one more character. -/
def headingLine (l : Str) : Bool :=
  match l with
  | '#' :: d :: _ :: _ => wsChar d
  | _ => false

/-- Hash-and-whitespace stripping plus trim of one heading (line 132). -/
def headingText (l : Str) : Str := trim ((l.drop 1).dropWhile wsChar)

/-- The accessibility deny-list of lines 126-129, tested with a
case-sensitive substring check (line 133). -/
def accessibilityKeywords : List Str :=
  ["Product summary".toList, "Keyboard shortcut".toList,
   "Skip to main content".toList, "Navigation".toList, "Menu".toList]

/-- Title priority 2 (lines 123-141): the first heading that is not an
accessibility phrase and is longer than fifty characters. -/
def titleFromHeadings (md : Str) : Option Str :=
  (((splitNl md).filter headingLine).map headingText).find?
    (fun t => !(accessibilityKeywords.any (fun k => containsSub k t)) && 50 < t.length)

/-- Title priority 3 (lines 144-147): the first line whose trimmed length
exceeds fifty, trimmed; else the sentinel. -/
def titleFallback (md : Str) : Str :=
  match ((splitNl md).filter (fun l => 50 < (trim l).length)).head? with
  | some l => trim l
  | none => "Unknown Title".toList

/-- The title cascade (lines 114-147); an empty string is falsy in JS, so a
priority that produces an empty title falls through. -/
def titleOf (md html : Str) : Str :=
  let t1 := ((scanFirst matchTitleSpanAt html).map trim).getD []
  if !t1.isEmpty then t1 else
  match titleFromHeadings md with
  | some t => t
  | none => titleFallback md

/-- The greedy block capture of the description regex (line 262): one or
more non-empty lines, each keeping its newline when present; the repetition
stops at an empty line or the end of input. -/
def captureBlockAux : Nat → Str → Str
  | 0, _ => []
  | _ + 1, [] => []
  | fuel + 1, s =>
    let line := s.takeWhile (fun c => !(c = '\n' : Bool))
    if line.isEmpty then [] else
    match s.drop line.length with
    | '\n' :: r =>
      if r.head?.elim true (fun c => c = '\n') then line ++ ['\n']
      else line ++ '\n' :: captureBlockAux fuel r
    | _ => line

def captureBlock (s : Str) : Str := captureBlockAux s.length s

/-- Position matcher for the description regex (line 262), case-insensitive:
one of three heading literals, a greedy run of colons and whitespace that
must end at a newline, then the block capture starting with a non-newline
character.  The colon-and-whitespace class overlaps the newline quantifier,
so the split is searched with descending greedy backtracking. -/
def matchDescrAt (s : Str) : Option Str :=
  let tryAlt (alt : Str) : Option Str := do
    let rest ← dropLitCi alt s
    let run := rest.takeWhile (fun c => c = ':' || wsChar c)
    lastHit (fun clsLen =>
      if clsLen ≤ run.length then
        let r2 := rest.drop clsLen
        let nrun := r2.takeWhile (fun c => (c = '\n' : Bool))
        if nrun.isEmpty then none else
        lastHit (fun nlm1 =>
          let r3 := r2.drop (nlm1 + 1)
          if nlm1 + 1 ≤ nrun.length then
            match r3 with
            | [] => none
            | c :: _ => if c = '\n' then none else some (captureBlock r3)
          else none) (nrun.length - 1)
      else none) run.length
  match tryAlt "Product Description".toList with
  | some cap => some cap
  | none =>
    match tryAlt "Description".toList with
    | some cap => some cap
    | none => tryAlt "About this item".toList

/-- The description extraction (lines 261-265): first match anywhere in the
markdown view, trimmed then truncated to two thousand characters. -/
def extractDescription (md : Str) : Str :=
  match scanFirst matchDescrAt md with
  | some cap => (trim cap).take 2000
  | none => []

/-! ## Image extraction

Two variants of the parser module exist in the repository.  The extended
variant (lines 270-364) scans both views with a permissive asset pattern,
deduplicates by base identifier, filters obvious non-image assets, assigns
roles using the landing-image marker and supplementary-content sections, and
keeps every distinct image.  The alternate variant (lines 679-734) prefers
the image-block section, falls back to a strict asset pattern over markdown
then HTML, and truncates the deduplicated list to fifteen entries. -/

/-- The character class of a base image identifier. -/
def idChar (c : Char) : Bool := alnumCi c || c = '+' || c = '_' || c = '-'

/-- The tail class of the permissive asset pattern: everything except a
double quote, whitespace, a closing parenthesis and a single quote. -/
def urlTailChar (c : Char) : Bool :=
  !(c = '"' || wsChar c || c = ')' || c = '\x27')

/-- Position matcher for the permissive asset pattern (line 275): an http or
https scheme, one of two hosts, the asset path, a non-empty greedy capture
of identifier characters, an optional dot, then a greedy tail run.  The
optional s of the scheme cannot backtrack usefully because the colon of the
alternative can never match an s; the capture cannot backtrack because its
class excludes the dot; nothing follows the tail run. -/
def matchImageUrlAt (s : Str) : Option ((Str × Str) × Str) := do
  let r ← dropLit "http".toList s
  let r ← match r with
    | 's' :: r2 => dropLit "://".toList r2
    | _ => dropLit "://".toList r
  let r ← match dropLit "m.media-amazon.com".toList r with
    | some r2 => some r2
    | none => dropLit "images-na.ssl-images-amazon.com".toList r
  let r ← dropLit "/images/I/".toList r
  let bid := r.takeWhile idChar
  if bid.isEmpty then none else
  let r2 := r.drop bid.length
  let r3 := match r2 with
    | '.' :: rr => rr
    | _ => r2
  let rest := r3.drop (r3.takeWhile urlTailChar).length
  some ((s.take (s.length - rest.length), bid), rest)

/-- All permissive asset matches of one view, in scan order, as pairs of
full URL and base identifier. -/
def imageMatches (s : Str) : List (Str × Str) := matchAll matchImageUrlAt s

/-- One step of the first-occurrence map fill (lines 283-285): a pair keyed
by base identifier is appended only when the key is new. -/
def insertIfNew (m : List (Str × Str)) (p : Str × Str) : List (Str × Str) :=
  if m.any (fun q => q.1 = p.1) then m else m ++ [p]

/-- The insertion-ordered identifier map of the extended variant (lines
270-297): the HTML view is scanned first, then the markdown view. -/
def imageBaseIds (md html : Str) : List (Str × Str) :=
  ((imageMatches html ++ imageMatches md).map (fun pr => (pr.2, pr.1))).foldl insertIfNew []

/-- Reference form of the first-occurrence map fill: keep a pair when its
key is not among the already-seen keys.  Related to the fold over
`insertIfNew` by the supporting lemmas below. -/
def dedupPairsFrom (seen : List Str) : List (Str × Str) → List (Str × Str)
  | [] => []
  | p :: t =>
    if p.1 ∈ seen then dedupPairsFrom seen t else p :: dedupPairsFrom (p.1 :: seen) t

/-- Reference form of first-occurrence key deduplication: the sequence of
keys in order of their first occurrence. -/
def dedupKeysFrom (seen : List Str) : List Str → List Str
  | [] => []
  | k :: t =>
    if k ∈ seen then dedupKeysFrom seen t else k :: dedupKeysFrom (k :: seen) t

def quoteCh (c : Char) : Bool := c = '"' || c = '\x27'

/-- Position matcher for the landing-image regex (line 301),
case-insensitive.  The angle-free run before the src attribute and the
quote-free run before the asset path are greedy, so both placements are
searched in descending order. -/
def matchLandingAt (s : Str) : Option Str := do
  let r ← dropLitCi "id=".toList s
  let r ← match r with
    | c :: rr => if quoteCh c then some rr else none
    | [] => none
  let r ← dropLitCi "landingImage".toList r
  let r ← match r with
    | c :: rr => if quoteCh c then some rr else none
    | [] => none
  let run := r.takeWhile (fun c => !(c = '>' : Bool))
  lastHit (fun k =>
    if k ≤ run.length then do
      let r2 ← dropLitCi "src=".toList (r.drop k)
      let r2 ← match r2 with
        | c :: rr => if quoteCh c then some rr else none
        | [] => none
      let r2 ← dropLitCi "http".toList r2
      let r2 ← match r2 with
        | c :: rr => if eqCi 's' c then dropLit "://".toList rr else dropLit "://".toList r2
        | [] => none
      let run2 := r2.takeWhile (fun c => !(quoteCh c))
      lastHit (fun k2 =>
        if k2 ≤ run2.length then do
          let r3 ← dropLitCi "/I/".toList (r2.drop k2)
          let bid := r3.takeWhile idChar
          if bid.isEmpty then none
          else if (r3.drop bid.length).head? = some '.' then some bid else none
        else none) run2.length
    else none) run.length

/-- The main-image identification (lines 300-309): the landing-image marker
when present, else the first key of the identifier map. -/
def mainImageIdOf (md html : Str) : Option Str :=
  match scanFirst matchLandingAt html with
  | some bid => some bid
  | none => ((imageBaseIds md html).head?).map (·.1)

/-- Position matcher for the supplementary-content div regex (line 313),
case-insensitive: an opening div, an id or class attribute whose quoted
value contains one of three markers, then a lazy capture up to the closing
div.  The attribute placement inside the angle-free run and the marker
placement inside the quote-free value are greedy backtracking searches; the
continuation of the marker search is independent of the placement, so only
existence matters there. -/
def matchAplusAt (s : Str) : Option (Str × Str) := do
  let r ← dropLitCi "<div".toList s
  let run := r.takeWhile (fun c => !(c = '>' : Bool))
  lastHit (fun k1 =>
    if k1 ≤ run.length then
      let attempt (attr : Str) : Option (Str × Str) := do
        let r1 ← dropLitCi attr (r.drop k1)
        let r1 ← match r1 with
          | c :: rr => if quoteCh c then some rr else none
          | [] => none
        let run2 := r1.takeWhile (fun c => !(quoteCh c))
        if containsCi "aplus".toList run2 || containsCi "a-plus".toList run2 ||
            containsCi "premium".toList run2 then
          match r1.drop run2.length with
          | c :: r2 =>
            if quoteCh c then
              let run3 := r2.takeWhile (fun d => !(d = '>' : Bool))
              match r2.drop run3.length with
              | '>' :: r3 => captureUntilCi "</div>".toList r3
              | _ => none
            else none
          | [] => none
        else none
      match attempt "id=".toList with
      | some pr => some pr
      | none => attempt "class=".toList
    else none) run.length

/-- Position matcher for the asset-path fragment used inside supplementary
sections (line 316): a slash-I-slash path, a non-empty identifier capture,
then a dot. -/
def matchSlashIdAt (s : Str) : Option (Str × Str) := do
  let r ← dropLit "/I/".toList s
  let bid := r.takeWhile idChar
  if bid.isEmpty then none else
  match r.drop bid.length with
  | '.' :: rr => some (bid, rr)
  | _ => none

/-- The supplementary-content identifier set (lines 312-321), kept as a list
whose membership models the set. -/
def aplusIds (html : Str) : List Str :=
  ((matchAll matchAplusAt html).map (fun sec => matchAll matchSlashIdAt sec)).flatten

/-- The standard-extension test of lines 327, 341, 346 (no webp). -/
def hasStdImageExt (u : Str) : Bool :=
  [".jpg".toList, ".jpeg".toList, ".png".toList, ".gif".toList].any (fun e => endsWithCi e u)

/-- The wider extension list used only with the AUIClients filter (line
327 includes webp). -/
def hasWideImageExt (u : Str) : Bool :=
  [".jpg".toList, ".jpeg".toList, ".png".toList, ".gif".toList, ".webp".toList].any
    (fun e => endsWithCi e u)

/-- The non-image filter of lines 324-329. -/
def survivesUrl (u : Str) : Bool :=
  !(containsSub ".css".toList u) && !(containsSub ".js".toList u) &&
  !(containsSub ".html".toList u) &&
  (!(containsSub "AUIClients/".toList u) || hasWideImageExt u)

/-- The variant-token character class of the replace on lines 340 and 728. -/
def vtChar (c : Char) : Bool := upperAlpha c || digitChar c || c = '_'

/-- First-occurrence replace of a resolution-variant token, a dot-underscore
token run ending in a dot, by the high-resolution token; none when the
pattern does not occur.  The fuel bounds the recursion depth; the string
length suffices because each step discards at least one character. -/
def replaceVariantTokAux : Nat → Str → Option Str
  | 0, _ => none
  | _ + 1, [] => none
  | fuel + 1, '.' :: '_' :: r =>
    let run := r.takeWhile vtChar
    if !run.isEmpty && (r.drop run.length).head? = some '.' then
      some ("._AC_SL1500_.".toList ++ r.drop (run.length + 1))
    else (replaceVariantTokAux fuel ('_' :: r)).map (fun t2 => '.' :: t2)
  | fuel + 1, c :: t => (replaceVariantTokAux fuel t).map (fun t2 => c :: t2)

def replaceVariantTok (s : Str) : Option Str := replaceVariantTokAux s.length s

/-- The high-resolution URL rewrite of the extended variant (lines 332-349). -/
def fixUrl (u : Str) : Str :=
  if endsWith ".".toList u && !(containsSub "._".toList u) then
    u ++ "_AC_SL1500_.jpg".toList
  else
    match replaceVariantTok u with
    | some u2 => if hasStdImageExt u2 then u2 else u2 ++ "jpg".toList
    | none => if hasStdImageExt u then u else u ++ ".jpg".toList

inductive ImgType
  | main
  | secondary
  | aplus
  deriving DecidableEq, Repr

structure ImageRef where
  url : Str
  itype : ImgType
  position : Nat
  deriving DecidableEq, Repr

/-- The surviving entries of the identifier map (line 324). -/
def filteredImages (md html : Str) : List (Str × Str) :=
  (imageBaseIds md html).filter (fun p => survivesUrl p.2)

/-- The image list of the extended variant (lines 332-364): every surviving
entry, rewritten, typed and positioned by index. -/
def imagesAll (md html : Str) : List ImageRef :=
  let mainId := mainImageIdOf md html
  let ap := aplusIds html
  (filteredImages md html).enum.map (fun (pr : Nat × Str × Str) =>
    { url := fixUrl pr.2.2
      itype :=
        if some pr.2.1 = mainId then ImgType.main
        else if ap.any (fun b => b = pr.2.1) then ImgType.aplus
        else ImgType.secondary
      position := pr.1 + 1 })

/-- Position matcher for the strict asset pattern of the alternate variant
(lines 689, 704): the single https host, a non-empty identifier capture,
then a mandatory dot. -/
def matchImageUrlStrictAt (s : Str) : Option ((Str × Str) × Str) := do
  let r ← dropLit "https://m.media-amazon.com/images/I/".toList s
  let bid := r.takeWhile idChar
  if bid.isEmpty then none else
  match r.drop bid.length with
  | '.' :: rr => some ((s.take (s.length - rr.length), bid), rr)
  | _ => none

/-- The image-block section of the HTML view (lines 683-685). -/
def imageBlockSection (html : Str) : Option Str :=
  scanFirst (fun s =>
    (matchTagSectionAt "<div".toList "id=\"imageBlock\"".toList "</div>".toList s).map
      (·.1)) html

/-- The identifier map of the alternate variant (lines 679-723): the
image-block section when it yields entries, else a fallback scan of the
markdown view followed by the HTML view. -/
def imageBaseIdsCapped (md html : Str) : List (Str × Str) :=
  let first :=
    match imageBlockSection html with
    | some sec =>
      ((matchAll matchImageUrlStrictAt sec).map (fun (pr : Str × Str) => (pr.2, pr.1))).foldl
        insertIfNew []
    | none => []
  if first.isEmpty then
    ((matchAll matchImageUrlStrictAt md ++ matchAll matchImageUrlStrictAt html).map
      (fun (pr : Str × Str) => (pr.2, pr.1))).foldl insertIfNew []
  else first

/-- The image list of the alternate variant (lines 725-734): the first
fifteen stored URLs, rewritten to the high-resolution token, the first one
marked main. -/
def imagesCapped (md html : Str) : List ImageRef :=
  ((((imageBaseIdsCapped md html).map (·.2)).take 15).enum).map (fun (pr : Nat × Str) =>
    { url := (replaceVariantTok pr.2).getD pr.2
      itype := if pr.1 = 0 then ImgType.main else ImgType.secondary
      position := pr.1 + 1 })

/-! ## The parse result (lib/firecrawl-amazon.ts lines 105-390)

The wall-clock field of the source record depends on ambient time and is
omitted from the embedding; no claim mentions it. -/

structure ParsedAmazonProduct where
  asin : Str
  title : Str
  price : ℚ
  rating : ℚ
  reviewCount : Nat
  bullets : List Str
  description : Str
  images : List ImageRef
  deriving DecidableEq, Repr

structure ParseResult where
  success : Bool
  data : Option ParsedAmazonProduct
  error : Option Str
  deriving DecidableEq, Repr

/-- The successful body of the parse (lines 110-382): pure extraction of
every field, with the bullet list truncated to ten entries. -/
def buildProduct (md html asin : Str) : ParsedAmazonProduct :=
  { asin := asin
    title := titleOf md html
    price := extractPrice md
    rating := extractRating md
    reviewCount := extractReviewCount md
    bullets := (extractBullets md html).take 10
    description := extractDescription md
    images := imagesAll md html }

/-- The parse entry point (lines 105-390).  Present strings reach the pure
extraction body, whose operations cannot throw, so the catch is dead and
the result is a success.  An absent view is dereferenced by its first
pattern match, raising the type error that the catch converts into a typed
failure. -/
def parseAmazonListing (markdown html : Option Str) (asin : Str) : ParseResult :=
  match markdown, html with
  | some md, some h => ⟨true, some (buildProduct md h asin), none⟩
  | _, _ => ⟨false, none, some "Cannot read properties of null".toList⟩

/-! ## Report synthesizer (src/nodes/chatgpt.ts) -/

/-- The lazy section capture of line 170: the shortest prefix that stops
right before a newline followed by two hashes, or the whole rest when that
boundary never occurs (the end-of-input alternative of the lookahead). -/
def captureToNlHH : Str → Str
  | [] => []
  | s@(c :: t) =>
    if (dropLit "\n##".toList s).isSome then [] else c :: captureToNlHH t

/-- Index of the last newline of a string, if any. -/
def lastNlIdx (w : Str) : Option Nat :=
  (((w.enum).filter (fun pr => pr.2 = '\n')).map (fun (pr : Nat × Char) => pr.1)).getLast?

/-- Position matcher for the section regex of line 170, case-insensitive:
two hashes, optional whitespace, the section name, whitespace ending in a
newline, then the lazy capture.  The first whitespace run cannot backtrack
into the name, whose first character is a letter; the second run is greedy,
so matching consumes it up to and including its last newline. -/
def matchSectionAt (name : Str) (s : Str) : Option Str := do
  let r ← dropLit "##".toList s
  let w := r.takeWhile wsChar
  let r2 ← dropLitCi name (r.drop w.length)
  let w2 := r2.takeWhile wsChar
  let k ← lastNlIdx w2
  pure (captureToNlHH (r2.drop (k + 1)))

/-- The section extraction of lines 169-173: first match anywhere in the
response text, trimmed; the empty string when the heading is absent. -/
def extractSection (text name : Str) : Str :=
  match scanFirst (matchSectionAt name) text with
  | some cap => trim cap
  | none => []

/-- The list-marker class of lines 181-182. -/
def markerChar (c : Char) : Bool := c = '-' || c = '*' || digitChar c || c = '.'

/-- The marker strip of line 182 followed by the trim: the strip only fires
when the untrimmed line starts with a marker character. -/
def processListLine (l : Str) : Str :=
  trim (match l with
    | c :: t => if markerChar c then t.dropWhile wsChar else l
    | [] => l)

/-- The list-item extraction of lines 175-186: the section is split into
lines, lines whose trimmed form starts with a list marker are kept, markers
are stripped, and short results are dropped. -/
def extractListItems (text name : Str) : List Str :=
  let sec := extractSection text name
  if sec.isEmpty then []
  else
    ((((splitNl sec).filter (fun l => (trim l).head?.elim false markerChar)).map
      processListLine).filter (fun l => 10 < l.length))

/-- Joining lines with single newlines: the shape of a well-formed section
body. -/
def joinNl : List Str → Str
  | [] => []
  | [l] => l
  | l :: t => l ++ '\n' :: joinNl t

/-- No newline is immediately followed by a hash character: such a string
can never contain the section boundary the lazy capture stops at. -/
def nlHashFree : Str → Bool
  | [] => true
  | c :: t => !(c = '\n' && t.headD ' ' = '#') && nlHashFree t

/-- A well-formed list line of a model response section: non-empty,
unindented with a leading list marker, single-line, without trailing
whitespace, and longer than ten characters once its marker is stripped. -/
def wfListLine (l : Str) : Prop :=
  l ≠ [] ∧ markerChar (l.headD ' ') = true ∧ '\n' ∉ l ∧
    wsChar (l.getLastD ' ') = false ∧ 10 < (processListLine l).length

structure AnalysisReport where
  summary : Str
  competitiveInsights : List Str
  recommendations : List Str
  imageQualityAnalysis : Str
  deriving DecidableEq, Repr

/-- The report assembly of lines 132-145: list sections are used as
extracted; an empty summary extraction falls back to the first five hundred
characters of the response, and an empty image-quality extraction falls
back to a fixed placeholder, because the empty string is falsy in JS. -/
def buildReport (text : Str) : AnalysisReport :=
  let s := extractSection text "Summary".toList
  let iqa := extractSection text "Image Quality Analysis".toList
  { summary := if s.isEmpty then text.take 500 else s
    competitiveInsights := extractListItems text "Competitive Insights".toList
    recommendations := extractListItems text "Recommendations".toList
    imageQualityAnalysis :=
      if iqa.isEmpty then "No image analysis available".toList else iqa }

/-- The analysis node (lines 8-167) on a completed model call: a response
yields a report and leaves the error log untouched; a call-level failure
yields no report and appends a chatgpt-stage entry (lines 155-166). -/
def analyzeWithGPT (errors : List ErrEntry) (response : Option Str) :
    Option AnalysisReport × List ErrEntry :=
  match response with
  | some text => (some (buildReport text), errors)
  | none =>
    (none, errors ++ [⟨"chatgpt".toList, none, "ChatGPT analysis failed".toList⟩])

/-! ## Batch scraper (src/nodes/firecrawl.ts) and image collector -/

/-- Observable events of the sequential loops: starting the network work of
one identifier, starting the analysis of one image, or sleeping for a fixed
number of milliseconds. -/
inductive Event
  | fetchItem (asin : Str)
  | analyzeImage (url : Str)
  | sleep (ms : Nat)
  deriving DecidableEq, Repr

structure ScrapeState where
  listings : List (Str × ParsedAmazonProduct)
  errors : List ErrEntry
  deriving DecidableEq, Repr

/-- JS Map set: overwrite in place when the key exists, else append. -/
def mapSet (m : List (Str × ParsedAmazonProduct)) (k : Str) (v : ParsedAmazonProduct) :
    List (Str × ParsedAmazonProduct) :=
  if m.any (fun q => q.1 = k) then
    m.map (fun q => if q.1 = k then (k, v) else q)
  else m ++ [(k, v)]

/-- The error message recorded on a failed scrape (line 33): the result
error when truthy, else the unknown-error fallback. -/
def failMsg (r : ParseResult) : Str :=
  match r.error with
  | some m => if m.isEmpty then "Unknown error".toList else m
  | none => "Unknown error".toList

/-- One iteration of the scrape loop (lines 22-49): a success with data is
inserted into the listing map; anything else appends a firecrawl-stage
error naming the identifier. -/
def scrapeStep (res : Str → ParseResult) (st : ScrapeState) (a : Str) : ScrapeState :=
  let r := res a
  match r.data, r.success with
  | some d, true => ⟨mapSet st.listings a d, st.errors⟩
  | _, _ => ⟨st.listings, st.errors ++ [⟨"firecrawl".toList, some a, failMsg r⟩]⟩

/-- The scrape loop (lines 18-50) with its event trace: each identifier is
processed in order, and the two-second sleep of lines 37-40 runs only when
the index is not the last one. -/
def scrapeListings (res : Str → ParseResult) (st : ScrapeState) :
    List Str → ScrapeState × List Event
  | [] => (st, [])
  | [a] => (scrapeStep res st a, [Event.fetchItem a])
  | a :: b :: rest =>
    let st1 := scrapeStep res st a
    let pr := scrapeListings res st1 (b :: rest)
    (pr.1, Event.fetchItem a :: Event.sleep 2000 :: pr.2)

/-- The listing-map entry one scrape result contributes: present exactly
when the result is a success carrying data (firecrawl.ts line 25). -/
def scrapeHit (res : Str → ParseResult) (a : Str) : Option (Str × ParsedAmazonProduct) :=
  match (res a).data, (res a).success with
  | some d, true => some (a, d)
  | _, _ => none

/-- The error entry one scrape result contributes (firecrawl.ts lines
28-35). -/
def scrapeMiss (res : Str → ParseResult) (a : Str) : Option ErrEntry :=
  match (res a).data, (res a).success with
  | some _, true => none
  | _, _ => some ⟨"firecrawl".toList, some a, failMsg (res a)⟩

/-- The per-listing loop of the image collector (rekognition node lines
143-212): the first five images are attempted in order; a successful
analysis unit ends with the three-hundred-millisecond sleep of line 202,
while a failed image skips the sleep because the sleep sits inside the try
block after the analysis calls. -/
def rekogListingTrace (imgs : List ImageRef) (ok : Str → Bool) : List Event :=
  (imgs.take 5).flatMap (fun im =>
    Event.analyzeImage im.url :: (if ok im.url then [Event.sleep 300] else []))

/-- The full image-collector trace over the listing map (lines 135-215). -/
def analyzeImagesTrace (listings : List (Str × ParsedAmazonProduct)) (ok : Str → Bool) :
    List Event :=
  listings.flatMap (fun pr => rekogListingTrace pr.2.images ok)

/-! ## Concrete data used by counterexamples and witnesses -/

/-- A markdown view holding sixteen asset URLs with sixteen distinct base
identifiers. -/
def md16 : Str :=
  (List.range 16).flatMap
    (fun i => "https://m.media-amazon.com/images/I/".toList ++ [Char.ofNat (97 + i), '.', '\n'])

/-- A product record holding exactly one image, as a scrape step could
produce it. -/
def oneImageProduct : ParsedAmazonProduct :=
  ⟨"B0TESTSKU1".toList, [], 0, 0, 0, [], [],
    [⟨"https://m.media-amazon.com/images/I/a._AC_SL1500_.jpg".toList, ImgType.main, 1⟩]⟩

/-- An empty product record used to instantiate scrape results. -/
def emptyProduct : ParsedAmazonProduct := ⟨[], [], 0, 0, 0, [], [], []⟩

/-! ## Supporting lemmas -/

theorem char_le_iff {a b : Char} : a ≤ b ↔ a.toNat ≤ b.toNat := by
  rw [Char.le_def, UInt32.le_def, BitVec.le_def]
  rfl

theorem char_toNat_inj {a b : Char} (h : a.toNat = b.toNat) : a = b := by
  apply Char.eq_of_val_eq
  apply UInt32.ext
  exact h

theorem lowerAlpha_iff {c : Char} : lowerAlpha c = true ↔ 97 ≤ c.toNat ∧ c.toNat ≤ 122 := by
  simp [lowerAlpha, char_le_iff]

theorem upperAlpha_iff {c : Char} : upperAlpha c = true ↔ 65 ≤ c.toNat ∧ c.toNat ≤ 90 := by
  simp [upperAlpha, char_le_iff]

theorem toNat_charOfNat {n : Nat} (h : n < 55296) : (Char.ofNat n).toNat = n := by
  have hv : n.isValidChar := Or.inl h
  simp [Char.ofNat, hv, Char.ofNatAux, Char.toNat, UInt32.toNat]

/-- Upper-casing never produces a lower-case letter. -/
theorem lowerAlpha_upCh (c : Char) : lowerAlpha (upCh c) = false := by
  unfold upCh
  by_cases h : lowerAlpha c = true
  · rw [if_pos h]
    have hb := lowerAlpha_iff.mp h
    have hofn : (Char.ofNat (c.toNat - 32)).toNat = c.toNat - 32 :=
      toNat_charOfNat (by omega)
    rcases Bool.eq_false_or_eq_true (lowerAlpha (Char.ofNat (c.toNat - 32))) with ht | hf
    · have := lowerAlpha_iff.mp ht
      rw [hofn] at this
      omega
    · exact hf
  · rw [if_neg h]
    exact Bool.eq_false_iff.mpr (fun hc => h hc)

/-- Upper-casing is idempotent. -/
theorem upCh_idem (c : Char) : upCh (upCh c) = upCh c := by
  have h := lowerAlpha_upCh c
  unfold upCh
  rw [show (if lowerAlpha c = true then Char.ofNat (c.toNat - 32) else c) = upCh c from rfl]
  rw [h]
  simp

theorem strUpper_idem (s : Str) : strUpper (strUpper s) = strUpper s := by
  unfold strUpper
  rw [List.map_map]
  exact List.map_congr_left (fun c _ => upCh_idem c)

theorem ratVal_nonneg (ip fp : Str) : 0 ≤ ratVal ip fp := by
  unfold ratVal
  positivity

/-! ## C1 -/

/-- C1: for every pair of present strings and every identifier the parse
returns success (the embedded extraction body is total, so nothing can
raise); when either view is absent, the parse instead returns a typed
failure carrying an error message. -/
theorem C1_parse_total : ∀ (md html asin : Str) (omd ohtml : Option Str) (asin2 : Str),
    (parseAmazonListing (some md) (some html) asin).success = true ∧
    ((omd = none ∨ ohtml = none) →
      (parseAmazonListing omd ohtml asin2).success = false ∧
      (parseAmazonListing omd ohtml asin2).error ≠ none) := by
  intro md html asin omd ohtml asin2
  refine ⟨rfl, ?_⟩
  rintro (rfl | rfl)
  · cases ohtml <;> simp [parseAmazonListing]
  · cases omd <;> simp [parseAmazonListing]

theorem C1_witness :
    (parseAmazonListing (some "md".toList) (some "h".toList) "B0TESTSKU1".toList).success
        = true ∧
    (parseAmazonListing none (some "h".toList) "B0TESTSKU1".toList).success = false :=
  ⟨(C1_parse_total "md".toList "h".toList "B0TESTSKU1".toList none (some "h".toList)
      "B0TESTSKU1".toList).1,
   ((C1_parse_total "md".toList "h".toList "B0TESTSKU1".toList none (some "h".toList)
      "B0TESTSKU1".toList).2 (Or.inl rfl)).1⟩

/-! ## C2 -/

theorem lowCh_B_iff {c : Char} : eqCi 'B' c = true ↔ c = 'B' ∨ c = 'b' := by
  unfold eqCi
  have hB : lowCh 'B' = 'b' := by decide
  rw [hB]
  simp only [decide_eq_true_eq]
  unfold lowCh
  by_cases h : upperAlpha c = true
  · rw [if_pos h]
    have hb := upperAlpha_iff.mp h
    have hofn : (Char.ofNat (c.toNat + 32)).toNat = c.toNat + 32 :=
      toNat_charOfNat (by omega)
    constructor
    · intro he
      replace he := he.symm
      left
      apply char_toNat_inj
      have : (Char.ofNat (c.toNat + 32)).toNat = ('b' : Char).toNat := by rw [← he]
      rw [hofn] at this
      have hbn : ('b' : Char).toNat = 98 := by decide
      have hBn : ('B' : Char).toNat = 66 := by decide
      omega
    · rintro (rfl | rfl)
      · decide
      · have := upperAlpha_iff.mp h
        have hbn : ('b' : Char).toNat = 98 := by decide
        omega
  · rw [if_neg h]
    constructor
    · intro he
      right
      exact he.symm
    · rintro (rfl | rfl)
      · exact absurd (by decide) h
      · rfl

theorem dropClassN_spec (p : Char → Bool) : ∀ (n : Nat) (t : Str),
    (match dropClassN p n t with
     | some rest => rest.isEmpty
     | none => false) = true ↔ (t.length = n ∧ ∀ d ∈ t, p d = true)
  | 0, [] => by simp [dropClassN]
  | 0, c :: t => by simp [dropClassN]
  | n + 1, [] => by simp [dropClassN]
  | n + 1, c :: t => by
    by_cases h : p c = true
    · have ih := dropClassN_spec p n t
      simp only [dropClassN, h, if_true]
      rw [ih]
      constructor
      · rintro ⟨hl, hall⟩
        refine ⟨by simp [hl], ?_⟩
        intro d hd
        rcases List.mem_cons.mp hd with rfl | hdt
        · exact h
        · exact hall d hdt
      · rintro ⟨hl, hall⟩
        refine ⟨by simpa using hl, ?_⟩
        intro d hd
        exact hall d (List.mem_cons_of_mem _ hd)
    · simp only [dropClassN, h, if_false]
      constructor
      · intro hfalse
        exact absurd hfalse (by simp)
      · rintro ⟨hl, hall⟩
        exact absurd (hall c (List.mem_cons_self c t)) h

/-- C2 (amended): the validation predicate accepts exactly the strings made
of the letter B, in either case, followed by nine alphanumeric characters,
case-insensitively — not an arbitrary leading letter; normalization of a
valid identifier is idempotent and leaves no lower-case letter. -/
theorem C2_identifier_validation : ∀ s : Str,
    (asinRegexTest s = true ↔
      ∃ c t, s = c :: t ∧ (c = 'B' ∨ c = 'b') ∧ t.length = 9 ∧ ∀ d ∈ t, alnumCi d = true) ∧
    (asinRegexTest s = true →
      strUpper (strUpper s) = strUpper s ∧ ∀ d ∈ strUpper s, lowerAlpha d = false) := by
  intro s
  constructor
  · cases s with
    | nil =>
      simp [asinRegexTest]
    | cons c t =>
      unfold asinRegexTest
      rw [Bool.and_eq_true, lowCh_B_iff, dropClassN_spec]
      constructor
      · rintro ⟨hc, hl, hall⟩
        exact ⟨c, t, rfl, hc, hl, hall⟩
      · rintro ⟨c2, t2, heq, hc, hl, hall⟩
        cases heq
        exact ⟨hc, hl, hall⟩
  · intro _
    refine ⟨strUpper_idem s, ?_⟩
    intro d hd
    rcases List.mem_map.mp hd with ⟨x, _, rfl⟩
    exact lowerAlpha_upCh x

/-- C2 counterexample: a string of the shape letter plus nine alphanumerics
whose letter is not a B is rejected by the code. -/
theorem C2_counterexample :
    claimLetterPlusNine "A123456789".toList = true ∧
    asinRegexTest "A123456789".toList = false := by
  constructor
  · decide
  · decide

theorem C2_witness :
    asinRegexTest "b0cjbq7f5c".toList = true ∧
    strUpper (strUpper "b0cjbq7f5c".toList) = strUpper "b0cjbq7f5c".toList :=
  ⟨by decide,
   ((C2_identifier_validation "b0cjbq7f5c".toList).2 (by decide)).1⟩

/-! ## C4 -/

theorem extractPrice_nonneg (md : Str) : 0 ≤ extractPrice md := by
  unfold extractPrice
  cases scanFirst matchPrice1At md with
  | some pr => exact ratVal_nonneg pr.1 pr.2
  | none =>
    cases scanFirst matchPrice2At md with
    | some pr => exact ratVal_nonneg pr.1 pr.2
    | none =>
      cases scanFirst matchPrice3At md with
      | some pr => exact ratVal_nonneg pr.1 pr.2
      | none => exact le_refl 0

theorem extractRating_nonneg (md : Str) : 0 ≤ extractRating md := by
  unfold extractRating
  cases scanFirst matchRating1At md with
  | some pr => exact ratVal_nonneg pr.1 pr.2
  | none =>
    cases scanFirst matchRating2At md with
    | some pr => exact ratVal_nonneg pr.1 pr.2
    | none =>
      cases scanFirst matchRating3At md with
      | some pr => exact ratVal_nonneg pr.1 pr.2
      | none => exact le_refl 0

/-- C4 (amended): price, rating and review count are total fields of every
successful parse, never negative, and equal to zero when no extraction
pattern matches; the rating is stored as matched, without an upper clamp,
so only non-negativity holds, not the five bound. -/
theorem C4_numeric_sentinels : ∀ (md html asin : Str),
    0 ≤ (buildProduct md html asin).price ∧
    0 ≤ (buildProduct md html asin).rating ∧
    0 ≤ (buildProduct md html asin).reviewCount ∧
    (scanFirst matchPrice1At md = none → scanFirst matchPrice2At md = none →
      scanFirst matchPrice3At md = none → (buildProduct md html asin).price = 0) ∧
    (scanFirst matchRating1At md = none → scanFirst matchRating2At md = none →
      scanFirst matchRating3At md = none → (buildProduct md html asin).rating = 0) ∧
    (scanFirst (matchThousandsKwAt "ratings".toList) md = none →
      scanFirst (matchThousandsKwAt "reviews".toList) md = none →
      scanFirst matchCustomerReviewsAt md = none →
      (buildProduct md html asin).reviewCount = 0) := by
  intro md html asin
  refine ⟨extractPrice_nonneg md, extractRating_nonneg md, Nat.zero_le _, ?_, ?_, ?_⟩
  · intro h1 h2 h3
    show extractPrice md = 0
    simp [extractPrice, h1, h2, h3]
  · intro h1 h2 h3
    show extractRating md = 0
    simp [extractRating, h1, h2, h3]
  · intro h1 h2 h3
    show extractReviewCount md = 0
    unfold extractReviewCount
    rw [h1, h2, h3]

/-- C4 counterexample: a rating phrase of nine point nine out of five stars
is stored as nine point nine, outside the claimed zero-to-five interval. -/
theorem C4_counterexample :
    (buildProduct "9.9 out of 5 stars".toList [] "B0TESTSKU1".toList).rating = 99 / 10 ∧
    ¬((buildProduct "9.9 out of 5 stars".toList [] "B0TESTSKU1".toList).rating ≤ 5) := by
  have hscan : scanFirst matchRating1At "9.9 out of 5 stars".toList = some (['9'], ['9']) := by
    decide
  have hr : (buildProduct "9.9 out of 5 stars".toList [] "B0TESTSKU1".toList).rating
      = ratVal ['9'] ['9'] := by
    show extractRating "9.9 out of 5 stars".toList = ratVal ['9'] ['9']
    unfold extractRating
    rw [hscan]
  have hd : digitsToNat ['9'] = 9 := rfl
  have hv : ratVal ['9'] ['9'] = 99 / 10 := by
    unfold ratVal
    rw [hd]
    norm_num
  constructor
  · rw [hr, hv]
  · rw [hr, hv]
    norm_num

theorem C4_witness :
    (buildProduct "no numbers here".toList [] "B0TESTSKU1".toList).price = 0 ∧
    (buildProduct "no numbers here".toList [] "B0TESTSKU1".toList).rating = 0 :=
  ⟨(C4_numeric_sentinels "no numbers here".toList [] "B0TESTSKU1".toList).2.2.2.1
      (by decide) (by decide) (by decide),
   (C4_numeric_sentinels "no numbers here".toList [] "B0TESTSKU1".toList).2.2.2.2.1
      (by decide) (by decide) (by decide)⟩

/-! ## C6 -/

theorem bulletLenOk_bounds {b : Str} (h : bulletLenOk b = true) :
    20 ≤ b.length ∧ b.length < 500 := by
  unfold bulletLenOk at h
  rcases Bool.and_eq_true_iff.mp h with ⟨h1, h2⟩
  have h1n : 20 < b.length := by exact_mod_cast of_decide_eq_true h1
  have h2n : b.length < 500 := by exact_mod_cast of_decide_eq_true h2
  omega

theorem mem_extractBullets_ok {b : Str} {md html : Str}
    (hb : b ∈ extractBullets md html) : bulletLenOk b = true := by
  unfold extractBullets at hb
  by_cases h : (htmlBullets html).isEmpty
  · rw [if_pos h] at hb
    unfold mdBullets at hb
    have := List.of_mem_filter hb
    exact (Bool.and_eq_true_iff.mp this).2
  · rw [if_neg h] at hb
    unfold htmlBullets at hb
    cases hsec : featureBulletsSection html with
    | some sec =>
      rw [hsec] at hb
      exact List.of_mem_filter hb
    | none =>
      rw [hsec] at hb
      exact absurd hb (List.not_mem_nil b)

/-- C6: every parse result carries at most ten bullets, and each bullet's
length lies in the interval from twenty inclusive to five hundred exclusive
(the code in fact enforces a strictly greater than twenty lower bound). -/
theorem C6_bullet_bounds : ∀ (md html asin : Str),
    (buildProduct md html asin).bullets.length ≤ 10 ∧
    ∀ b ∈ (buildProduct md html asin).bullets, 20 ≤ b.length ∧ b.length < 500 := by
  intro md html asin
  constructor
  · show ((extractBullets md html).take 10).length ≤ 10
    rw [List.length_take]
    omega
  · intro b hb
    exact bulletLenOk_bounds (mem_extractBullets_ok (List.mem_of_mem_take hb))

theorem C6_witness :
    20 ≤ ("Premium quality card sleeves".toList).length ∧
    ("Premium quality card sleeves".toList).length < 500 :=
  (C6_bullet_bounds "* Premium quality card sleeves".toList [] "B0TESTSKU1".toList).2
    "Premium quality card sleeves".toList (by decide)

/-! ## C5 -/

theorem scrapeTrace_eq (res : Str → ParseResult) : ∀ (asins : List Str) (st : ScrapeState),
    (scrapeListings res st asins).2 =
      List.intersperse (Event.sleep 2000) (asins.map Event.fetchItem)
  | [], _ => rfl
  | [_], _ => rfl
  | a :: b :: rest, st => by
    have ih := scrapeTrace_eq res (b :: rest) (scrapeStep res st a)
    show Event.fetchItem a :: Event.sleep 2000 ::
        (scrapeListings res (scrapeStep res st a) (b :: rest)).2 = _
    rw [ih]
    simp [List.intersperse_cons_cons]

/-- C5 (amended): in the batch scraper the two-second delay separates
consecutive identifiers exactly, never before the first and never after the
last; in the image collector, however, the three-hundred-unit delay follows
every successfully analyzed image, including the last one of the sequence,
though no delay ever precedes the first event. -/
theorem C5_pacing :
    (∀ (res : Str → ParseResult) (st : ScrapeState) (asins : List Str),
      (scrapeListings res st asins).2 =
        List.intersperse (Event.sleep 2000) (asins.map Event.fetchItem)) ∧
    (∀ (imgs : List ImageRef) (ok : Str → Bool), (∀ u, ok u = true) →
      rekogListingTrace imgs ok =
        (imgs.take 5).flatMap (fun im => [Event.analyzeImage im.url, Event.sleep 300])) ∧
    (∀ (imgs : List ImageRef) (ok : Str → Bool) (ms : Nat),
      (rekogListingTrace imgs ok).head? ≠ some (Event.sleep ms)) := by
  refine ⟨fun res st asins => scrapeTrace_eq res asins st, ?_, ?_⟩
  · intro imgs ok hok
    unfold rekogListingTrace
    congr 1
    funext im
    rw [hok im.url]
    rfl
  · intro imgs ok ms
    unfold rekogListingTrace
    cases imgs.take 5 with
    | nil => simp
    | cons im tl =>
      rw [List.flatMap_cons]
      simp

/-- C5 counterexample: one listing with one image and a successful analysis
produces a trace whose last event is the three-hundred-unit sleep — a delay
after the last work item of the sequence. -/
theorem C5_counterexample :
    (analyzeImagesTrace [("B0TESTSKU1".toList, oneImageProduct)] (fun _ => true)).getLast?
      = some (Event.sleep 300) := by
  decide

theorem C5_witness :
    rekogListingTrace oneImageProduct.images (fun _ => true) =
      [Event.analyzeImage "https://m.media-amazon.com/images/I/a._AC_SL1500_.jpg".toList,
       Event.sleep 300] := by
  rw [C5_pacing.2.1 oneImageProduct.images (fun _ => true) (fun _ => rfl)]
  decide

/-! ## C9 -/

/-- C9 (amended): a missing section heading is recoverable, not an error —
the report is still built and the error log is unchanged; the two
list-valued sections then come out as empty lists, but the string-valued
sections do not come out empty: the summary falls back to the first five
hundred characters of the response and the image-quality section to a fixed
placeholder string. -/
theorem C9_missing_sections : ∀ (errors : List ErrEntry) (text : Str),
    (analyzeWithGPT errors (some text)).2 = errors ∧
    (extractSection text "Competitive Insights".toList = [] →
      (buildReport text).competitiveInsights = []) ∧
    (extractSection text "Recommendations".toList = [] →
      (buildReport text).recommendations = []) ∧
    (extractSection text "Summary".toList = [] →
      (buildReport text).summary = text.take 500) ∧
    (extractSection text "Image Quality Analysis".toList = [] →
      (buildReport text).imageQualityAnalysis = "No image analysis available".toList) := by
  intro errors text
  refine ⟨rfl, ?_, ?_, ?_, ?_⟩
  · intro h
    show extractListItems text "Competitive Insights".toList = []
    rw [extractListItems, h]
    rfl
  · intro h
    show extractListItems text "Recommendations".toList = []
    rw [extractListItems, h]
    rfl
  · intro h
    show (if (extractSection text "Summary".toList).isEmpty then text.take 500
          else extractSection text "Summary".toList) = text.take 500
    rw [h]
    rfl
  · intro h
    show (if (extractSection text "Image Quality Analysis".toList).isEmpty then
            "No image analysis available".toList
          else extractSection text "Image Quality Analysis".toList) =
        "No image analysis available".toList
    rw [h]
    rfl

/-- C9 counterexample: with a response containing no headings at all, the
string-valued report fields are not empty strings — the summary repeats the
response text and the image-quality field is a non-empty placeholder. -/
theorem C9_counterexample :
    extractSection "plain model reply".toList "Summary".toList = [] ∧
    (buildReport "plain model reply".toList).summary ≠ [] ∧
    (buildReport "plain model reply".toList).imageQualityAnalysis ≠ [] := by
  refine ⟨by decide, by decide, by decide⟩

theorem C9_witness :
    (buildReport "x".toList).recommendations = [] ∧
    (buildReport "x".toList).summary = ("x".toList).take 500 :=
  ⟨(C9_missing_sections [] "x".toList).2.2.1 (by decide),
   (C9_missing_sections [] "x".toList).2.2.2.1 (by decide)⟩

/-! ## C10 -/

theorem mem_firstDedupAux (x : Str) : ∀ (fuel : Nat) (l : List Str), l.length ≤ fuel →
    (x ∈ firstDedupAux fuel l ↔ x ∈ l)
  | 0, l, h => by
    have : l = [] := List.eq_nil_of_length_eq_zero (Nat.le_zero.mp h)
    subst this
    simp [firstDedupAux]
  | _ + 1, [], _ => by simp [firstDedupAux]
  | fuel + 1, a :: t, h => by
    rw [firstDedupAux]
    have hlen : (t.filter (fun b => !(b = a : Bool))).length ≤ fuel :=
      le_trans (List.length_filter_le _ _) (by simpa using h)
    have ih := mem_firstDedupAux x fuel (t.filter (fun b => !(b = a : Bool))) hlen
    by_cases hx : x = a
    · subst hx
      simp
    · simp only [List.mem_cons, ih, List.mem_filter, hx, false_or]
      constructor
      · rintro ⟨hxt, _⟩
        exact hxt
      · intro hxt
        refine ⟨hxt, ?_⟩
        simp [hx]

theorem mem_firstDedup (x : Str) (l : List Str) : x ∈ firstDedup l ↔ x ∈ l :=
  mem_firstDedupAux x l.length l (le_refl _)

/-- C10 (amended): the spreadsheet reader unconditionally discards the first
row of the identifier column as a presumed header, so a valid identifier in
the first row is absent from the output whenever it does not also occur in
some later row; every valid identifier of the later rows is present,
uppercased. -/
theorem C10_header_skip : ∀ (r0 : List Str) (rest : List (List Str)) (errors : List ErrEntry),
    (∀ id0, r0.head? = some id0 →
      strUpper id0 ∉ (rest.filterMap (fun r => r.head?)).map strUpper →
      strUpper id0 ∉ (readAsinsFromSheet (r0 :: rest) errors).1) ∧
    (∀ row ∈ rest, ∀ j, row.head? = some j → (!j.isEmpty && asinRegexTest j) = true →
      strUpper j ∈ (readAsinsFromSheet (r0 :: rest) errors).1) := by
  intro r0 rest errors
  have hres : (readAsinsFromSheet (r0 :: rest) errors).1 =
      firstDedup (((rest.filterMap (fun r => r.head?)).filter
        (fun a => !a.isEmpty && asinRegexTest a)).map strUpper) := by
    rfl
  constructor
  · intro id0 _ hno hmem
    rw [hres, mem_firstDedup] at hmem
    rcases List.mem_map.mp hmem with ⟨a, hain, haeq⟩
    exact hno (List.mem_map.mpr ⟨a, List.mem_of_mem_filter hain, haeq⟩)
  · intro row hrow j hj hvalid
    rw [hres, mem_firstDedup]
    apply List.mem_map.mpr
    refine ⟨j, ?_, rfl⟩
    apply List.mem_filter.mpr
    exact ⟨List.mem_filterMap.mpr ⟨row, hrow, hj⟩, hvalid⟩

/-- C10 counterexample: when the first row's identifier also appears in a
later row, it is present in the output, so the claim's unconditional absence
fails. -/
theorem C10_counterexample :
    "B000000001".toList ∈
      (readAsinsFromSheet [["B000000001".toList], ["B000000001".toList]] []).1 := by
  decide

theorem C10_witness :
    strUpper "B111111111".toList ∉
      (readAsinsFromSheet [["B111111111".toList], ["B222222222".toList]] []).1 ∧
    strUpper "B222222222".toList ∈
      (readAsinsFromSheet [["B111111111".toList], ["B222222222".toList]] []).1 :=
  ⟨(C10_header_skip ["B111111111".toList] [["B222222222".toList]] []).1
      "B111111111".toList rfl (by decide),
   (C10_header_skip ["B111111111".toList] [["B222222222".toList]] []).2
      ["B222222222".toList] (by simp) "B222222222".toList rfl (by decide)⟩

/-! ## C7 -/

theorem scrapeStep_listings {res : Str → ParseResult} {st : ScrapeState} {a : Str}
    (hfresh : st.listings.any (fun q => q.1 = a) = false) :
    (scrapeStep res st a).listings = st.listings ++ (scrapeHit res a).toList := by
  unfold scrapeStep scrapeHit
  cases hd : (res a).data with
  | none => cases hs : (res a).success <;> simp [hd, hs]
  | some d =>
    cases hs : (res a).success with
    | false => simp [hd, hs]
    | true =>
      simp only [hd, hs, Option.toList]
      unfold mapSet
      rw [hfresh]
      simp

theorem scrapeStep_errors {res : Str → ParseResult} {st : ScrapeState} {a : Str} :
    (scrapeStep res st a).errors = st.errors ++ (scrapeMiss res a).toList := by
  unfold scrapeStep scrapeMiss
  cases hd : (res a).data with
  | none => cases hs : (res a).success <;> simp [hd, hs]
  | some d => cases hs : (res a).success <;> simp [hd, hs]

theorem scrapeStep_fresh {res : Str → ParseResult} {st : ScrapeState} {a x : Str}
    (hfresh : st.listings.any (fun q => q.1 = a) = false)
    (hx : st.listings.any (fun q => q.1 = x) = false) (hne : x ≠ a) :
    (scrapeStep res st a).listings.any (fun q => q.1 = x) = false := by
  rw [scrapeStep_listings hfresh, List.any_append, hx]
  cases hhit : scrapeHit res a with
  | none => simp
  | some p =>
    have hp : p.1 = a := by
      unfold scrapeHit at hhit
      cases hd : (res a).data with
      | none =>
        rw [hd] at hhit
        simp at hhit
      | some d =>
        rw [hd] at hhit
        cases hs : (res a).success with
        | false =>
          rw [hs] at hhit
          simp at hhit
        | true =>
          rw [hs] at hhit
          simp only [Option.some.injEq] at hhit
          rw [← hhit]
    simp [hp, hne.symm]

theorem filterMap_cons_toList (f : α → Option β) (x : α) (l : List α) :
    List.filterMap f (x :: l) = (f x).toList ++ List.filterMap f l := by
  cases h : f x <;> simp [List.filterMap_cons, h]

theorem scrapeListings_spec (res : Str → ParseResult) : ∀ (asins : List Str) (st : ScrapeState),
    asins.Nodup →
    (∀ a ∈ asins, st.listings.any (fun q => q.1 = a) = false) →
    (scrapeListings res st asins).1.listings
        = st.listings ++ asins.filterMap (scrapeHit res) ∧
    (scrapeListings res st asins).1.errors
        = st.errors ++ asins.filterMap (scrapeMiss res)
  | [], st, _, _ => by simp [scrapeListings]
  | [a], st, _, hfresh => by
    have hf := hfresh a (List.mem_singleton_self a)
    show (scrapeStep res st a).listings = _ ∧ (scrapeStep res st a).errors = _
    rw [scrapeStep_listings hf, scrapeStep_errors,
        filterMap_cons_toList (scrapeHit res) a [], filterMap_cons_toList (scrapeMiss res) a []]
    constructor <;> simp
  | a :: b :: rest, st, hnodup, hfresh => by
    have hf := hfresh a (List.mem_cons_self a (b :: rest))
    have hnodup2 : (b :: rest).Nodup := (List.nodup_cons.mp hnodup).2
    have hne : ∀ x ∈ b :: rest, x ≠ a := by
      intro x hx
      intro hxa
      exact (List.nodup_cons.mp hnodup).1 (hxa ▸ hx)
    have hfresh2 : ∀ x ∈ b :: rest,
        (scrapeStep res st a).listings.any (fun q => q.1 = x) = false := by
      intro x hx
      exact scrapeStep_fresh hf (hfresh x (List.mem_cons_of_mem a hx)) (hne x hx)
    have ih := scrapeListings_spec res (b :: rest) (scrapeStep res st a) hnodup2 hfresh2
    have hshow : (scrapeListings res st (a :: b :: rest)).1
        = (scrapeListings res (scrapeStep res st a) (b :: rest)).1 := rfl
    rw [hshow]
    rcases ih with ⟨ihl, ihe⟩
    rw [ihl, ihe, scrapeStep_listings hf, scrapeStep_errors,
        filterMap_cons_toList (scrapeHit res) a (b :: rest),
        filterMap_cons_toList (scrapeMiss res) a (b :: rest),
        List.append_assoc, List.append_assoc]
    exact ⟨rfl, rfl⟩

theorem scrapeMiss_of_no_hit {res : Str → ParseResult} {x : Str}
    (h : scrapeHit res x = none) :
    scrapeMiss res x = some ⟨"firecrawl".toList, some x, failMsg (res x)⟩ := by
  unfold scrapeHit at h
  unfold scrapeMiss
  cases hd : (res x).data <;> rw [hd] at h <;> cases hs : (res x).success <;>
    rw [hs] at h <;> simp_all

/-- C7: a batch of three identifiers whose second fetch fails yields a
listing map with exactly two entries and an error log with exactly one
firecrawl-stage entry naming the failing identifier; in general every
identifier of a batch is processed — it ends up either in the listing map
or named by an error entry, so one failure never aborts the batch. -/
theorem C7_batch_isolation :
    (∀ (res : Str → ParseResult) (a b c : Str) (da dc : ParsedAmazonProduct) (m : Str),
      a ≠ b → b ≠ c → a ≠ c →
      res a = ⟨true, some da, none⟩ →
      res b = ⟨false, none, some m⟩ →
      res c = ⟨true, some dc, none⟩ →
      (scrapeListings res ⟨[], []⟩ [a, b, c]).1.listings = [(a, da), (c, dc)] ∧
      (scrapeListings res ⟨[], []⟩ [a, b, c]).1.errors
          = [⟨"firecrawl".toList, some b, failMsg (res b)⟩]) ∧
    (∀ (res : Str → ParseResult) (asins : List Str) (e0 : List ErrEntry), asins.Nodup →
      ∀ x ∈ asins,
        (∃ p ∈ (scrapeListings res ⟨[], e0⟩ asins).1.listings, p.1 = x) ∨
        (∃ e ∈ (scrapeListings res ⟨[], e0⟩ asins).1.errors, e.asin = some x)) := by
  constructor
  · intro res a b c da dc m hab hbc hac hra hrb hrc
    have hnodup : ([a, b, c] : List Str).Nodup := by
      simp [hab, hac, hbc]
    have hfresh : ∀ x ∈ ([a, b, c] : List Str),
        (ScrapeState.mk [] []).listings.any (fun q => q.1 = x) = false := by
      intro x _
      rfl
    have hspec := scrapeListings_spec res [a, b, c] ⟨[], []⟩ hnodup hfresh
    have hha : scrapeHit res a = some (a, da) := by simp [scrapeHit, hra]
    have hhb : scrapeHit res b = none := by simp [scrapeHit, hrb]
    have hhc : scrapeHit res c = some (c, dc) := by simp [scrapeHit, hrc]
    have hma : scrapeMiss res a = none := by simp [scrapeMiss, hra]
    have hmb : scrapeMiss res b = some ⟨"firecrawl".toList, some b, failMsg (res b)⟩ := by
      simp [scrapeMiss, hrb]
    have hmc : scrapeMiss res c = none := by simp [scrapeMiss, hrc]
    rcases hspec with ⟨hl, he⟩
    constructor
    · rw [hl]
      simp [List.filterMap_cons, hha, hhb, hhc]
    · rw [he]
      simp [List.filterMap_cons, hma, hmb, hmc]
  · intro res asins e0 hnodup x hx
    have hfresh : ∀ a ∈ asins,
        (ScrapeState.mk [] e0).listings.any (fun q => q.1 = a) = false := by
      intro a _
      rfl
    have hspec := scrapeListings_spec res asins ⟨[], e0⟩ hnodup hfresh
    rcases hspec with ⟨hl, he⟩
    cases hhit : scrapeHit res x with
    | some p =>
      left
      refine ⟨p, ?_, ?_⟩
      · rw [hl]
        simp only [List.nil_append]
        exact List.mem_filterMap.mpr ⟨x, hx, hhit⟩
      · unfold scrapeHit at hhit
        cases hd : (res x).data with
        | none =>
          rw [hd] at hhit
          simp at hhit
        | some d =>
          rw [hd] at hhit
          cases hs : (res x).success with
          | false =>
            rw [hs] at hhit
            simp at hhit
          | true =>
            rw [hs] at hhit
            simp only [Option.some.injEq] at hhit
            rw [← hhit]
    | none =>
      right
      refine ⟨⟨"firecrawl".toList, some x, failMsg (res x)⟩, ?_, rfl⟩
      rw [he]
      apply List.mem_append_right
      exact List.mem_filterMap.mpr ⟨x, hx, scrapeMiss_of_no_hit hhit⟩

theorem C7_witness :
    (scrapeListings
        (fun x =>
          if x = "B000000002".toList then ⟨false, none, some "boom".toList⟩
          else ⟨true, some emptyProduct, none⟩)
        ⟨[], []⟩ ["B000000001".toList, "B000000002".toList, "B000000003".toList]).1.listings
      = [("B000000001".toList, emptyProduct), ("B000000003".toList, emptyProduct)] :=
  ((C7_batch_isolation.1
    (fun x =>
      if x = "B000000002".toList then ⟨false, none, some "boom".toList⟩
      else ⟨true, some emptyProduct, none⟩)
    "B000000001".toList "B000000002".toList "B000000003".toList
    emptyProduct emptyProduct "boom".toList
    (by decide) (by decide) (by decide) (by decide) (by decide) (by decide))).1

/-! ## C3 -/

theorem any_key_iff {acc : List (Str × Str)} {k : Str} :
    acc.any (fun q => q.1 = k) = true ↔ k ∈ acc.map Prod.fst := by
  simp [List.any_eq_true, List.mem_map]

theorem dedupPairsFrom_congr : ∀ (l : List (Str × Str)) (s1 s2 : List Str),
    (∀ x, x ∈ s1 ↔ x ∈ s2) → dedupPairsFrom s1 l = dedupPairsFrom s2 l
  | [], _, _, _ => rfl
  | p :: t, s1, s2, h => by
    unfold dedupPairsFrom
    by_cases hp : p.1 ∈ s1
    · rw [if_pos hp, if_pos ((h p.1).mp hp)]
      exact dedupPairsFrom_congr t s1 s2 h
    · rw [if_neg hp, if_neg (fun hc => hp ((h p.1).mpr hc))]
      rw [dedupPairsFrom_congr t (p.1 :: s1) (p.1 :: s2)
        (fun x => by simp [List.mem_cons, h x])]

theorem foldl_insertIfNew : ∀ (l : List (Str × Str)) (acc : List (Str × Str)),
    List.foldl insertIfNew acc l = acc ++ dedupPairsFrom (acc.map Prod.fst) l
  | [], acc => by simp [dedupPairsFrom]
  | p :: t, acc => by
    rw [List.foldl_cons]
    by_cases hmem : p.1 ∈ acc.map Prod.fst
    · have hins : insertIfNew acc p = acc := by
        unfold insertIfNew
        rw [if_pos (any_key_iff.mpr hmem)]
      rw [hins, foldl_insertIfNew t acc]
      have hrhs : dedupPairsFrom (acc.map Prod.fst) (p :: t)
          = dedupPairsFrom (acc.map Prod.fst) t := by
        show (if p.1 ∈ acc.map Prod.fst then dedupPairsFrom (acc.map Prod.fst) t
              else p :: dedupPairsFrom (p.1 :: acc.map Prod.fst) t)
            = dedupPairsFrom (acc.map Prod.fst) t
        rw [if_pos hmem]
      rw [hrhs]
    · have hins : insertIfNew acc p = acc ++ [p] := by
        unfold insertIfNew
        rw [if_neg (fun hc => hmem (any_key_iff.mp hc))]
      rw [hins, foldl_insertIfNew t (acc ++ [p])]
      have hseen : ((acc ++ [p]).map Prod.fst) = acc.map Prod.fst ++ [p.1] := by
        simp
      rw [hseen]
      rw [dedupPairsFrom_congr t (acc.map Prod.fst ++ [p.1]) (p.1 :: acc.map Prod.fst)
        (fun x => by simp [or_comm])]
      have hrhs : dedupPairsFrom (acc.map Prod.fst) (p :: t)
          = p :: dedupPairsFrom (p.1 :: acc.map Prod.fst) t := by
        show (if p.1 ∈ acc.map Prod.fst then dedupPairsFrom (acc.map Prod.fst) t
              else p :: dedupPairsFrom (p.1 :: acc.map Prod.fst) t)
            = p :: dedupPairsFrom (p.1 :: acc.map Prod.fst) t
        rw [if_neg hmem]
      rw [hrhs]
      simp

theorem dedupPairsFrom_keys : ∀ (l : List (Str × Str)) (seen : List Str),
    (dedupPairsFrom seen l).map Prod.fst = dedupKeysFrom seen (l.map Prod.fst)
  | [], _ => rfl
  | p :: t, seen => by
    unfold dedupPairsFrom
    rw [List.map_cons]
    unfold dedupKeysFrom
    by_cases hp : p.1 ∈ seen
    · rw [if_pos hp, if_pos hp]
      exact dedupPairsFrom_keys t seen
    · rw [if_neg hp, if_neg hp, List.map_cons]
      rw [dedupPairsFrom_keys t (p.1 :: seen)]

theorem dedupKeysFrom_nodup : ∀ (l : List Str) (seen : List Str),
    (dedupKeysFrom seen l).Nodup ∧ ∀ x ∈ dedupKeysFrom seen l, x ∉ seen
  | [], _ => by simp [dedupKeysFrom]
  | k :: t, seen => by
    unfold dedupKeysFrom
    by_cases hk : k ∈ seen
    · rw [if_pos hk]
      exact dedupKeysFrom_nodup t seen
    · rw [if_neg hk]
      have ih := dedupKeysFrom_nodup t (k :: seen)
      constructor
      · rw [List.nodup_cons]
        refine ⟨?_, ih.1⟩
        intro hkin
        exact (ih.2 k hkin) (List.mem_cons_self k seen)
      · intro x hx
        rcases List.mem_cons.mp hx with rfl | hxt
        · exact hk
        · intro hxs
          exact (ih.2 x hxt) (List.mem_cons_of_mem k hxs)

theorem enumFrom_map_pos : ∀ (l : List α) (n : Nat),
    (List.enumFrom n l).map (fun pr => pr.1 + 1) = List.range' (n + 1) l.length
  | [], _ => rfl
  | a :: t, n => by
    rw [List.enumFrom_cons, List.map_cons, List.length_cons, List.range'_succ]
    rw [enumFrom_map_pos t (n + 1)]

/-- C3 (amended): in the extended parser variant the image output carries
exactly one entry per distinct surviving base identifier — the stored keys
are duplicate-free and ordered by first occurrence in the scan of the HTML
view followed by the markdown view — and every surviving entry produces one
ImageRef with position equal to its one-based index, with no cap; the
alternate parser variant instead truncates the deduplicated list to its
first fifteen entries. -/
theorem C3_image_dedup : ∀ (md html : Str),
    ((imageBaseIds md html).map Prod.fst).Nodup ∧
    (imageBaseIds md html).map Prod.fst
        = dedupKeysFrom [] ((imageMatches html ++ imageMatches md).map Prod.snd) ∧
    ((filteredImages md html).map Prod.fst).Nodup ∧
    (imagesAll md html).length = (filteredImages md html).length ∧
    (imagesAll md html).map ImageRef.position
        = List.range' 1 (filteredImages md html).length ∧
    (imagesCapped md html).length = min 15 (imageBaseIdsCapped md html).length := by
  intro md html
  have hkeys : (imageBaseIds md html).map Prod.fst
      = dedupKeysFrom [] ((imageMatches html ++ imageMatches md).map Prod.snd) := by
    unfold imageBaseIds
    rw [foldl_insertIfNew _ []]
    rw [List.nil_append]
    show (dedupPairsFrom [] _).map Prod.fst = _
    rw [dedupPairsFrom_keys]
    rw [List.map_map]
    rfl
  have hnodup : ((imageBaseIds md html).map Prod.fst).Nodup := by
    rw [hkeys]
    exact (dedupKeysFrom_nodup _ []).1
  refine ⟨hnodup, hkeys, ?_, ?_, ?_, ?_⟩
  · have hsub : List.Sublist ((filteredImages md html).map Prod.fst)
        ((imageBaseIds md html).map Prod.fst) :=
      List.Sublist.map Prod.fst (List.filter_sublist _)
    exact hnodup.sublist hsub
  · unfold imagesAll
    rw [List.length_map, List.enum, List.enumFrom_length]
  · unfold imagesAll
    rw [List.map_map]
    show (List.enumFrom 0 (filteredImages md html)).map (fun pr => pr.1 + 1) = _
    rw [enumFrom_map_pos]
  · unfold imagesCapped
    rw [List.length_map, List.enum, List.enumFrom_length, List.length_take, List.length_map]

set_option maxRecDepth 4000 in
/-- C3 counterexample: sixteen distinct surviving base identifiers reach the
alternate parser's deduplicated map, but only fifteen ImageRefs are emitted,
so the sixteenth identifier has no ImageRef and the image count is capped. -/
theorem C3_counterexample :
    (imageBaseIdsCapped md16 []).length = 16 ∧ (imagesCapped md16 []).length = 15 := by
  constructor
  · decide
  · decide

/-! ## C8 -/

theorem charEq_iff {a b : Char} : a = b ↔ a.toNat = b.toNat :=
  ⟨fun h => by rw [h], char_toNat_inj⟩

theorem wsChar_iff {c : Char} : wsChar c = true ↔
    c.toNat = 32 ∨ c.toNat = 9 ∨ c.toNat = 10 ∨ c.toNat = 13 ∨
      c.toNat = 11 ∨ c.toNat = 12 := by
  have h1 : (' ' : Char).toNat = 32 := rfl
  have h2 : ('\t' : Char).toNat = 9 := rfl
  have h3 : ('\n' : Char).toNat = 10 := rfl
  have h4 : ('\r' : Char).toNat = 13 := rfl
  have h5 : ('\x0b' : Char).toNat = 11 := rfl
  have h6 : ('\x0c' : Char).toNat = 12 := rfl
  simp only [wsChar, Bool.or_eq_true, decide_eq_true_eq, charEq_iff, h1, h2, h3, h4, h5, h6]
  omega

theorem markerChar_iff {c : Char} : markerChar c = true ↔
    c.toNat = 45 ∨ c.toNat = 42 ∨ (48 ≤ c.toNat ∧ c.toNat ≤ 57) ∨ c.toNat = 46 := by
  have h1 : ('-' : Char).toNat = 45 := rfl
  have h2 : ('*' : Char).toNat = 42 := rfl
  have h3 : ('.' : Char).toNat = 46 := rfl
  have h4 : ('0' : Char).toNat = 48 := rfl
  have h5 : ('9' : Char).toNat = 57 := rfl
  simp only [markerChar, digitChar, Bool.or_eq_true, Bool.and_eq_true, decide_eq_true_eq,
    charEq_iff, char_le_iff, h1, h2, h3, h4, h5]
  omega

theorem markerChar_not_ws {c : Char} (h : markerChar c = true) : wsChar c = false := by
  have hm := markerChar_iff.mp h
  cases hws : wsChar c
  · rfl
  · have hw := wsChar_iff.mp hws
    omega

theorem markerChar_ne_hash {c : Char} (h : markerChar c = true) : c ≠ '#' := by
  intro he
  subst he
  exact absurd h (by decide)

theorem not_ws_ne_nl {c : Char} (h : wsChar c = false) : c ≠ '\n' := by
  intro he
  rw [he] at h
  exact absurd h (by decide)

theorem dropWhile_eq_self_of_head {p : Char → Bool} {l : Str}
    (h : ∀ c, l.head? = some c → p c = false) : l.dropWhile p = l := by
  cases l with
  | nil => rfl
  | cons c t =>
    rw [List.dropWhile_cons, h c rfl]
    simp

theorem trim_eq_self {l : Str}
    (hhead : ∀ c, l.head? = some c → wsChar c = false)
    (hlast : ∀ c, l.getLast? = some c → wsChar c = false) : trim l = l := by
  unfold trim trimL trimR
  rw [dropWhile_eq_self_of_head hhead]
  rw [dropWhile_eq_self_of_head (fun c hc => hlast c (by rwa [List.head?_reverse] at hc))]
  exact List.reverse_reverse l

theorem splitNl_cons (c : Char) (t : Str) :
    splitNl (c :: t) = match splitNl t with
      | [] => [[c]]
      | h :: r => if c = '\n' then [] :: h :: r else (c :: h) :: r := rfl

theorem splitNl_cons_eq (c : Char) (t : Str) {a : Str} {r : List Str}
    (h : splitNl t = a :: r) :
    splitNl (c :: t) = if c = '\n' then [] :: a :: r else (c :: a) :: r := by
  rw [splitNl_cons, h]

theorem splitNl_ne_nil : ∀ (s : Str), splitNl s ≠ []
  | [] => by simp [splitNl]
  | c :: t => by
    rw [splitNl_cons]
    cases h : splitNl t with
    | nil => simp
    | cons a r => by_cases hc : c = '\n' <;> simp [hc]

theorem splitNl_no_nl : ∀ (l : Str), '\n' ∉ l → splitNl l = [l]
  | [], _ => rfl
  | c :: t, h => by
    have hrec := splitNl_no_nl t (fun hm => h (List.mem_cons_of_mem c hm))
    have hc : ¬(c = '\n') := fun he => h (he ▸ List.mem_cons_self c t)
    rw [splitNl_cons_eq c t hrec, if_neg hc]

theorem splitNl_append : ∀ (l s : Str), '\n' ∉ l → splitNl (l ++ '\n' :: s) = l :: splitNl s
  | [], s, _ => by
    show splitNl ('\n' :: s) = [] :: splitNl s
    obtain ⟨a, r, h⟩ : ∃ a r, splitNl s = a :: r := by
      cases hh : splitNl s with
      | nil => exact absurd hh (splitNl_ne_nil s)
      | cons a r => exact ⟨a, r, rfl⟩
    rw [splitNl_cons_eq '\n' s h, if_pos rfl, h]
  | c :: t, s, h => by
    have hrec := splitNl_append t s (fun hm => h (List.mem_cons_of_mem c hm))
    have hc : ¬(c = '\n') := fun he => h (he ▸ List.mem_cons_self c t)
    show splitNl (c :: (t ++ '\n' :: s)) = (c :: t) :: splitNl s
    rw [splitNl_cons_eq c (t ++ '\n' :: s) hrec, if_neg hc]

theorem splitNl_joinNl : ∀ (lines : List Str), lines ≠ [] → (∀ l ∈ lines, '\n' ∉ l) →
    splitNl (joinNl lines) = lines
  | [], h, _ => absurd rfl h
  | [l], _, hno => by
    show splitNl l = [l]
    exact splitNl_no_nl l (hno l (List.mem_singleton_self l))
  | l :: l2 :: t, _, hno => by
    show splitNl (l ++ '\n' :: joinNl (l2 :: t)) = l :: (l2 :: t)
    rw [splitNl_append l (joinNl (l2 :: t)) (hno l (List.mem_cons_self _ _))]
    rw [splitNl_joinNl (l2 :: t) (by simp) (fun x hx => hno x (List.mem_cons_of_mem l hx))]

theorem nlHashFree_cons {c : Char} {t : Str} (hc : ¬(c = '\n'))
    (ht : nlHashFree t = true) : nlHashFree (c :: t) = true := by
  unfold nlHashFree
  simp [hc, ht]

theorem nlHashFree_of_no_nl : ∀ {l : Str}, '\n' ∉ l → nlHashFree l = true
  | [], _ => rfl
  | c :: t, h => by
    have hc : ¬(c = '\n') := fun he => h (he ▸ List.mem_cons_self c t)
    exact nlHashFree_cons hc (nlHashFree_of_no_nl (fun hm => h (List.mem_cons_of_mem c hm)))

theorem nlHashFree_append {l s : Str} (hl : '\n' ∉ l) (hs : nlHashFree s = true) :
    nlHashFree (l ++ s) = true := by
  induction l with
  | nil => exact hs
  | cons c t ih =>
    have hc : ¬(c = '\n') := fun he => hl (he ▸ List.mem_cons_self c t)
    exact nlHashFree_cons hc (ih (fun hm => hl (List.mem_cons_of_mem c hm)))

theorem head?_joinNl_cons (c : Char) (t0 : Str) (rest : List Str) :
    (joinNl ((c :: t0) :: rest)).head? = some c := by
  cases rest with
  | nil => rfl
  | cons x xs => rfl

theorem joinNl_ne_nil (l0 : Str) (rest : List Str) (h : l0 ≠ []) :
    joinNl (l0 :: rest) ≠ [] := by
  cases rest with
  | nil => exact h
  | cons x xs =>
    show l0 ++ '\n' :: joinNl (x :: xs) ≠ []
    simp

theorem nlHashFree_joinNl : ∀ (lines : List Str),
    (∀ l ∈ lines, l ≠ [] ∧ '\n' ∉ l ∧ markerChar (l.headD ' ') = true) →
    nlHashFree (joinNl lines) = true
  | [], _ => rfl
  | [l], h => by
    show nlHashFree l = true
    exact nlHashFree_of_no_nl (h l (List.mem_singleton_self l)).2.1
  | l :: l2 :: t, h => by
    show nlHashFree (l ++ '\n' :: joinNl (l2 :: t)) = true
    apply nlHashFree_append (h l (List.mem_cons_self _ _)).2.1
    have h2 := h l2 (List.mem_cons_of_mem l (List.mem_cons_self _ _))
    obtain ⟨c2, t2, rfl⟩ : ∃ c2 t2, l2 = c2 :: t2 := by
      cases l2 with
      | nil => exact absurd rfl h2.1
      | cons a b => exact ⟨a, b, rfl⟩
    have hhash : c2 ≠ '#' := markerChar_ne_hash (by simpa using h2.2.2)
    have hrec : nlHashFree (joinNl ((c2 :: t2) :: t)) = true :=
      nlHashFree_joinNl ((c2 :: t2) :: t)
        (fun x hx => h x (List.mem_cons_of_mem l hx))
    unfold nlHashFree
    rw [hrec]
    have hd : (joinNl ((c2 :: t2) :: t)).headD ' ' = c2 := by
      have := head?_joinNl_cons c2 t2 t
      rw [List.headD_eq_head?, this]
      rfl
    rw [hd]
    simp [hhash]

theorem getLast?_joinNl : ∀ (lines : List Str), (∀ l ∈ lines, l ≠ []) → lines ≠ [] →
    ∃ l0, l0 ∈ lines ∧ (joinNl lines).getLast? = l0.getLast?
  | [], _, h => absurd rfl h
  | [l], _, _ => ⟨l, List.mem_singleton_self l, rfl⟩
  | l :: l2 :: t, h, _ => by
    obtain ⟨l0, hl0, he⟩ := getLast?_joinNl (l2 :: t)
      (fun x hx => h x (List.mem_cons_of_mem l hx)) (by simp)
    refine ⟨l0, List.mem_cons_of_mem l hl0, ?_⟩
    show (l ++ '\n' :: joinNl (l2 :: t)).getLast? = _
    rw [List.getLast?_append]
    have hne : joinNl (l2 :: t) ≠ [] :=
      joinNl_ne_nil l2 t (h l2 (List.mem_cons_of_mem l (List.mem_cons_self _ _)))
    cases hj : (joinNl (l2 :: t)) with
    | nil => exact absurd hj hne
    | cons a r =>
      rw [hj] at he
      rw [List.getLast?_cons_cons, he]
      have hl0ne : l0 ≠ [] := h l0 (List.mem_cons_of_mem l hl0)
      cases hg : l0.getLast? with
      | none => exact absurd (List.getLast?_eq_none_iff.mp hg) hl0ne
      | some x => rfl

theorem dropLit_cons (l : Char) (ls : Str) (c : Char) (cs : Str) :
    dropLit (l :: ls) (c :: cs) = if l = c then dropLit ls cs else none := rfl

theorem captureToNlHH_cons (c : Char) (t : Str) :
    captureToNlHH (c :: t)
      = if (dropLit "\n##".toList (c :: t)).isSome then [] else c :: captureToNlHH t := rfl

theorem captureToNlHH_structured : ∀ (body tl : Str),
    nlHashFree body = true →
    (∀ c, body.getLast? = some c → ¬(c = '\n')) →
    (tl = [] ∨ ∃ r, tl = '\n' :: '#' :: '#' :: r) →
    captureToNlHH (body ++ tl) = body
  | [], tl, _, _, hs => by
    rcases hs with rfl | ⟨r, rfl⟩
    · rfl
    · rfl
  | c :: t, tl, hfree, hlast, hs => by
    have heq : nlHashFree (c :: t)
        = ((!(c = '\n' && t.headD ' ' = '#')) && nlHashFree t) := rfl
    rw [heq] at hfree
    have hfree2 : nlHashFree t = true := (Bool.and_eq_true_iff.mp hfree).2
    have hnb : (!(c = '\n' && t.headD ' ' = '#')) = true := (Bool.and_eq_true_iff.mp hfree).1
    have hdrop : dropLit "\n##".toList (c :: (t ++ tl)) = none := by
      by_cases hc : c = '\n'
      · subst hc
        cases t with
        | nil => exact absurd rfl (hlast '\n' rfl)
        | cons u t2 =>
          have hu : ¬(u = '#') := by
            intro he
            rw [he] at hnb
            simp at hnb
          show dropLit ('\n' :: '#' :: '#' :: []) ('\n' :: (u :: t2 ++ tl)) = none
          rw [dropLit_cons, if_pos rfl, List.cons_append, dropLit_cons,
            if_neg (fun he => hu he.symm)]
      · show dropLit ('\n' :: '#' :: '#' :: []) (c :: (t ++ tl)) = none
        rw [dropLit_cons, if_neg (fun he => hc he.symm)]
    have hlast2 : ∀ c2, t.getLast? = some c2 → ¬(c2 = '\n') := by
      intro c2 hc2
      apply hlast c2
      cases t with
      | nil => simp at hc2
      | cons u t2 => rw [List.getLast?_cons_cons]; exact hc2
    rw [List.cons_append, captureToNlHH_cons, hdrop]
    simp only [Option.isSome_none, Bool.false_eq_true, if_false]
    rw [captureToNlHH_structured t tl hfree2 hlast2 hs]

theorem scanFirst_of_head {m : Str → Option α} {s : Str} {a : α}
    (h : m s = some a) : scanFirst m s = some a := by
  cases s with
  | nil => simpa [scanFirst] using h
  | cons c t =>
    have heq : scanFirst m (c :: t) = match m (c :: t) with
      | some a => some a
      | none => scanFirst m t := rfl
    rw [heq, h]

theorem matchSectionAt_recommendations (X : Str) (hX : X.takeWhile wsChar = []) :
    matchSectionAt "Recommendations".toList ("## Recommendations\n".toList ++ X)
      = some (captureToNlHH X) := by
  have step : matchSectionAt "Recommendations".toList ("## Recommendations\n".toList ++ X)
      = (lastNlIdx ('\n' :: X.takeWhile wsChar)).bind
          (fun k => some (captureToNlHH (('\n' :: X).drop (k + 1)))) := rfl
  rw [step, hX]
  rfl

theorem extractSection_recommendations (X : Str) (hX : X.takeWhile wsChar = []) :
    extractSection ("## Recommendations\n".toList ++ X) "Recommendations".toList
      = trim (captureToNlHH X) := by
  unfold extractSection
  rw [scanFirst_of_head (matchSectionAt_recommendations X hX)]

theorem ws_getLast?_of_wf {l : Str} (hw : wsChar (l.getLastD ' ') = false) :
    ∀ c, l.getLast? = some c → wsChar c = false := by
  intro c hc
  rw [List.getLastD_eq_getLast?, hc] at hw
  exact hw

/-- C8: when the response text is a Recommendations heading followed by
well-formed list lines, one per line, optionally continued by a further
section, the parsed recommendations list is exactly the marker-stripped
lines, in order — so it has exactly as many entries as there are lines. -/
theorem C8_recommendations : ∀ (lines : List Str) (tl : Str),
    lines ≠ [] →
    (∀ l ∈ lines, wfListLine l) →
    (tl = [] ∨ ∃ r, tl = '\n' :: '#' :: '#' :: r) →
    extractListItems ("## Recommendations\n".toList ++ (joinNl lines ++ tl))
        "Recommendations".toList = lines.map processListLine ∧
    (lines.map processListLine).length = lines.length := by
  intro lines tl hne hwf htl
  refine ⟨?_, List.length_map _ _⟩
  obtain ⟨l1, rest, rfl⟩ : ∃ l1 rest, lines = l1 :: rest := by
    cases lines with
    | nil => exact absurd rfl hne
    | cons a b => exact ⟨a, b, rfl⟩
  obtain ⟨c1, t1, rfl⟩ : ∃ c t, l1 = c :: t := by
    rcases hwf l1 (List.mem_cons_self _ _) with ⟨hne1, _, _, _, _⟩
    cases l1 with
    | nil => exact absurd rfl hne1
    | cons a b => exact ⟨a, b, rfl⟩
  have hm1 : markerChar c1 = true := (hwf _ (List.mem_cons_self _ _)).2.1
  obtain ⟨Z, hZ⟩ : ∃ Z, joinNl ((c1 :: t1) :: rest) = c1 :: Z := by
    cases rest with
    | nil => exact ⟨t1, rfl⟩
    | cons x xs => exact ⟨t1 ++ '\n' :: joinNl (x :: xs), rfl⟩
  have hX : ((joinNl ((c1 :: t1) :: rest)) ++ tl).takeWhile wsChar = [] := by
    rw [hZ, List.cons_append, List.takeWhile_cons, markerChar_not_ws hm1]
    rfl
  have hfree : nlHashFree (joinNl ((c1 :: t1) :: rest)) = true := by
    apply nlHashFree_joinNl
    intro l hl
    rcases hwf l hl with ⟨h1, h2, h3, _, _⟩
    exact ⟨h1, h3, h2⟩
  have hlastws : ∀ c, (joinNl ((c1 :: t1) :: rest)).getLast? = some c → wsChar c = false := by
    intro c hc
    obtain ⟨l0, hl0, he⟩ := getLast?_joinNl ((c1 :: t1) :: rest)
      (fun x hx => (hwf x hx).1) (by simp)
    rw [he] at hc
    exact ws_getLast?_of_wf (hwf l0 hl0).2.2.2.1 c hc
  have hsec : extractSection
      ("## Recommendations\n".toList ++ (joinNl ((c1 :: t1) :: rest) ++ tl))
      "Recommendations".toList = joinNl ((c1 :: t1) :: rest) := by
    rw [extractSection_recommendations _ hX]
    rw [captureToNlHH_structured (joinNl ((c1 :: t1) :: rest)) tl hfree
      (fun c hc => not_ws_ne_nl (hlastws c hc)) htl]
    apply trim_eq_self
    · intro c hc
      rw [head?_joinNl_cons] at hc
      cases hc
      exact markerChar_not_ws hm1
    · exact hlastws
  unfold extractListItems
  rw [hsec]
  have hnonempty : (joinNl ((c1 :: t1) :: rest)).isEmpty = false := by
    rw [hZ]
    rfl
  simp only [hnonempty, Bool.false_eq_true, if_false]
  rw [splitNl_joinNl ((c1 :: t1) :: rest) (by simp) (fun x hx => (hwf x hx).2.2.1)]
  have htrim : ∀ l ∈ (c1 :: t1) :: rest, trim l = l := by
    intro l hl
    rcases hwf l hl with ⟨h1, h2, _, h4, _⟩
    apply trim_eq_self
    · intro c hc
      cases l with
      | nil => simp at hc
      | cons d dt =>
        cases hc
        exact markerChar_not_ws (by simpa using h2)
    · exact ws_getLast?_of_wf h4
  have hfilter : ((c1 :: t1) :: rest).filter
      (fun l => (trim l).head?.elim false markerChar) = (c1 :: t1) :: rest := by
    apply List.filter_eq_self.mpr
    intro l hl
    rw [htrim l hl]
    rcases hwf l hl with ⟨h1, h2, _, _, _⟩
    cases l with
    | nil => exact absurd rfl h1
    | cons d dt => simpa using h2
  rw [hfilter]
  apply List.filter_eq_self.mpr
  intro x hx
  rcases List.mem_map.mp hx with ⟨l, hl, rfl⟩
  have := (hwf l hl).2.2.2.2
  simpa using this

theorem C8_witness :
    extractListItems
        ("## Recommendations\n".toList ++
          (joinNl ["- improve the main image today".toList] ++ []))
        "Recommendations".toList
      = [processListLine "- improve the main image today".toList] := by
  have h := (C8_recommendations ["- improve the main image today".toList] []
    (by simp)
    (by
      intro l hl
      simp only [List.mem_singleton] at hl
      subst hl
      exact ⟨by decide, by decide, by decide, by decide, by decide⟩)
    (Or.inl rfl)).1
  simpa using h

end LA
